import Mathlib

/-!
# Certik scraper: the scrape orchestration engine

A shallow embedding of `src/certikScraperSupabase.js` (class `CertikScraperSupabase`),
of the page extractor `scrapeCertik` of `src/Scraper.js`, of the candidate query of
`src/supabase/uploadCoinsToSupabase.js` and of the check the scheduler of
`src/cronScraper.js` makes on the returned summary.

The collaborators (the Supabase table `certik_coins`, the browser behind `scrapeCertik`,
the clock and the local time zone) are inputs: an `Env` fixes what each of them answers,
and a `World` carries the table, the scraper object and the log of collaborator calls.
Workflows of one batch run concurrently in the source: `batch.map` starts every workflow
before any of them finishes. Here they are run one after the other in list order, so inside
one batch the log shows the calls of each workflow in that workflow's own order and not the
interleaving of an actual run. What is stated about the log of a batch is to be read coin
by coin (`eventsOf`): the relative order of the calls of two workflows of the same batch is
that of the model only. The counters do not depend on it, nor does the table when the
coins of a batch have distinct ids.
-/

namespace CertikScraper

/-! ## Data model -/

/-- One label/value pair read from the page; a text that was not found is `undefined`. -/
structure LabelValue where
  label : Option String
  value : Option String
deriving DecidableEq, Repr

/-- The object `result.securityScores` of `scrapeCertik`: a key is present once it was assigned. -/
structure SecurityScores where
  averageScore : Option String
  additionalMetrics : Option (List LabelValue)
deriving DecidableEq, Repr

/-- The object `result.financialData` of `scrapeCertik`. -/
structure FinancialData where
  metrics : Option (List LabelValue)
  dailyInflows : Option (List LabelValue)
deriving DecidableEq, Repr

/-- The object returned by `scrapeCertik` (`project` is the search term it was given). -/
structure CertikData where
  project : Option String
  securityScores : SecurityScores
  communityEngagement : List LabelValue
  financialData : FinancialData
deriving DecidableEq, Repr

/-- The value of `Object.keys(securityScores)`. -/
def SecurityScores.keys (s : SecurityScores) : List String :=
  (if s.averageScore.isSome then ["averageScore"] else []) ++
    (if s.additionalMetrics.isSome then ["additionalMetrics"] else [])

/-- A row of the table `certik_coins`. Time stamps are milliseconds since the epoch
(the instant an ISO string written by `toISOString` denotes). -/
structure Coin where
  coin_gecko_id : Option String
  symbol : Option String
  name : Option String
  market_cap_rank : Option Int
  certik_data : Option CertikData
  certik_last_updated : Option Int
  certik_next_update : Option Int
  certik_scrape_attempts : Option Nat
  certik_last_error : Option String
deriving DecidableEq, Repr

/-- What the store answers to one request: `{error: null}`, `{error: {message}}`,
or a rejected promise. A request that is not answered `ok` leaves the table as it was. -/
inductive StoreReply where
  | ok
  | error (message : String)
  | throws (message : String)
deriving DecidableEq, Repr

/-- What one call of `scrapeCertik` does: return the result object, return `null`,
or throw (opening or closing the page failed). -/
inductive ScrapeOutcome where
  | data (certikData : CertikData)
  | null
  | throws (message : String)
deriving DecidableEq, Repr

/-- A call made to a collaborator. `allSettled batch` records that
`Promise.allSettled` was awaited on the workflows of `batch`. -/
inductive Call where
  | incrementScrapeAttempts (coinGeckoId : String)
  | scrapeCertik (searchTerm : Option String)
  | updateCoinCertikData (coinGeckoId : String) (certikData : CertikData)
  | updateCoinError (coinGeckoId : String) (errorMessage : String)
  | waitSeconds (seconds : Nat)
  | allSettled (batch : List Coin)
deriving DecidableEq, Repr

/-- A logged call together with the task that made it: `some coin` for
`processSingleCoin(coin)`, `none` for `scrapeAndUpdateDatabase` itself. -/
structure Event where
  task : Option Coin
  call : Call
deriving DecidableEq, Repr

/-- The fields of a `CertikScraperSupabase` object (the browser handle is left out). -/
structure CertikScraperSupabase where
  batchSize : Nat
  maxRetries : Nat
  successCount : Nat
  failCount : Nat
deriving DecidableEq, Repr

/-- The `options` argument of the constructor. -/
structure Options where
  batchSize : Option Nat
  maxRetries : Option Nat
deriving DecidableEq, Repr

/-- The expression `x || d` for an optional number: `undefined` and `0` give `d`. -/
def orDefault (x : Option Nat) (d : Nat) : Nat :=
  match x with
  | none => d
  | some 0 => d
  | some n => n

/-- The constructor of `CertikScraperSupabase`. -/
def CertikScraperSupabase.new (options : Options) : CertikScraperSupabase :=
  { batchSize := orDefault options.batchSize 3
    maxRetries := orDefault options.maxRetries 3
    successCount := 0
    failCount := 0 }

/-- The object returned by `scrapeAndUpdateDatabase`; `total` is `none` when the
returned object has no such key. -/
structure Summary where
  success : Nat
  failed : Nat
  total : Option Nat
deriving DecidableEq, Repr

/-! ## Environment -/

/-- What the collaborators answer during one attempt of one coin. -/
structure AttemptEnv where
  /-- Reply to the `select ... single()` of `incrementScrapeAttempts`. -/
  selectAttempts : StoreReply
  /-- Reply to the `update` of `incrementScrapeAttempts`. -/
  updateAttempts : StoreReply
  /-- Outcome of `scrapeCertik`. -/
  scrape : ScrapeOutcome
  /-- Reply to the `update` of `updateCoinCertikData`. -/
  updateData : StoreReply
  /-- First clock reading of `updateCoinCertikData` (`nextUpdate = new Date()`). -/
  nextUpdateClock : Int
  /-- Second clock reading of `updateCoinCertikData` (`certik_last_updated`). -/
  lastUpdatedClock : Int
  /-- Reply to the `update` of the `updateCoinError` of this attempt. -/
  updateError : StoreReply
  /-- Clock reading of that `updateCoinError`. -/
  errorClock : Int

/-- What the collaborators answer during the workflow of one coin; attempts are
numbered by `totalAttempts`, from 1. -/
structure CoinEnv where
  attempt : Nat → AttemptEnv
  /-- Reply to the closing `updateCoinError` ("All scraping attempts failed"). -/
  finalError : StoreReply
  finalClock : Int

/-- The environment of a run. `localTZA t isUTC` is the offset of local time from UTC in
milliseconds (ECMAScript `LocalTZA`), `toUpperCase` the upper-casing of the engine (it follows
the Unicode case mappings, which are not spelled out here), `queryNow` the value of `now()` in
the candidate query. -/
structure Env where
  localTZA : Int → Bool → Int
  /-- The engine's `String.prototype.toUpperCase`. -/
  toUpperCase : String → String
  coin : Coin → CoinEnv
  query : StoreReply
  queryNow : Int

/-- The mutable state: the scraper object, the table and the log of calls. -/
structure World where
  scraper : CertikScraperSupabase
  rows : List Coin
  log : List Event

/-- Append one call to the log. -/
def emit (w : World) (task : Option Coin) (call : Call) : World :=
  { w with log := w.log ++ [⟨task, call⟩] }

/-! ## The store operations -/

/-- The request `update(patch).eq("coin_gecko_id", coinGeckoId)`. -/
def updateEq (rows : List Coin) (coinGeckoId : String) (patch : Coin → Coin) : List Coin :=
  rows.map fun r => if r.coin_gecko_id = some coinGeckoId then patch r else r

/-- The rows selected by `eq("coin_gecko_id", coinGeckoId)`. -/
def selectEq (rows : List Coin) (coinGeckoId : String) : List Coin :=
  rows.filter fun r => r.coin_gecko_id = some coinGeckoId

/-- Milliseconds per day. -/
def msPerDay : Int := 86400000

/-- The date written by `nextUpdate.setDate(nextUpdate.getDate() + 2)` for `nextUpdate`
read at `t`: two days are added to the local time, which is then taken back to UTC. -/
def setDatePlus2 (localTZA : Int → Bool → Int) (t : Int) : Int :=
  let localTime := t + localTZA t true
  let newDate := localTime + 2 * msPerDay
  newDate - localTZA newDate false

/-- The method `updateCoinCertikData`, on the table; `Except.error` is a thrown error. -/
def updateCoinCertikData (localTZA : Int → Bool → Int) (reply : StoreReply)
    (nextUpdateClock lastUpdatedClock : Int) (rows : List Coin) (coinGeckoId : String)
    (certikData : CertikData) : Except String (List Coin) :=
  let nextUpdate := setDatePlus2 localTZA nextUpdateClock
  match reply with
  | .ok =>
    .ok (updateEq rows coinGeckoId fun r =>
      { r with
        certik_data := some certikData
        certik_last_updated := some lastUpdatedClock
        certik_next_update := some nextUpdate
        certik_last_error := none })
  | .error message => .error ("Database update failed: " ++ message)
  | .throws message => .error message

/-- The method `updateCoinError`, on the table: a store error is logged and swallowed. -/
def updateCoinError (reply : StoreReply) (now : Int) (rows : List Coin)
    (coinGeckoId : String) (errorMessage : String) : List Coin :=
  match reply with
  | .ok =>
    updateEq rows coinGeckoId fun r =>
      { r with
        certik_last_error := some errorMessage
        certik_last_updated := some now }
  | .error _ => rows
  | .throws _ => rows

/-- The method `incrementScrapeAttempts`, on the table. `single()` reports an error unless
exactly one row is selected. -/
def incrementScrapeAttempts (selectReply updateReply : StoreReply) (rows : List Coin)
    (coinGeckoId : String) : List Coin :=
  match selectReply with
  | .ok =>
    match selectEq rows coinGeckoId with
    | [currentData] =>
      let currentAttempts := orDefault currentData.certik_scrape_attempts 0
      match updateReply with
      | .ok =>
        updateEq rows coinGeckoId fun r =>
          { r with certik_scrape_attempts := some (currentAttempts + 1) }
      | .error _ => rows
      | .throws _ => rows
    | _ => rows
  | .error _ => rows
  | .throws _ => rows

/-! ## The candidate query -/

/-- The filter `certik_data.is.null,certik_next_update.lt.now()`. -/
def needsCertikData (now : Int) (r : Coin) : Bool :=
  r.certik_data.isNone ||
    (match r.certik_next_update with
     | some t => decide (t < now)
     | none => false)

/-- The order `market_cap_rank` ascending, rows without a rank last. -/
def rankLE (a b : Coin) : Prop :=
  match a.market_cap_rank, b.market_cap_rank with
  | some x, some y => x ≤ y
  | some _, none => True
  | none, some _ => False
  | none, none => True

instance : DecidableRel rankLE := fun a b => by
  unfold rankLE
  cases a.market_cap_rank <;> cases b.market_cap_rank <;> infer_instance

/-- The function `getCoinsForCertikScraping`: an error of the query is caught and
the empty list returned. -/
def getCoinsForCertikScraping (env : Env) (rows : List Coin) (limit : Option Int) :
    List Coin :=
  let query := (rows.filter (needsCertikData env.queryNow)).insertionSort rankLE
  match env.query with
  | .ok =>
    match limit with
    | some n => if 0 < n then query.take n.toNat else query
    | none => query
  | .error _ => []
  | .throws _ => []

/-! ## The workflow of one coin -/

/-- The call `coin_gecko_id.replace` of `processSingleCoin`: every dash becomes a space. -/
def replaceDashes (s : String) : String :=
  ⟨s.data.map fun c => if c = '-' then ' ' else c⟩

/-- A value placed in a template literal: `null` is printed as the text null. -/
def jsString (s : Option String) : String :=
  match s with
  | some t => t
  | none => "null"

/-- The array `searchTerms` of `processSingleCoin`; building it throws a `TypeError`
when `symbol` or `coin_gecko_id` is `null`. -/
def searchTerms (env : Env) (coin : Coin) : Except String (List (Option String)) :=
  match coin.symbol with
  | none => .error "Cannot read properties of null (reading \x27toUpperCase\x27)"
  | some symbol =>
    match coin.coin_gecko_id with
    | none => .error "Cannot read properties of null (reading \x27replace\x27)"
    | some coinGeckoId =>
      .ok [coin.name, some (env.toUpperCase symbol), some (replaceDashes coinGeckoId)]

/-- The message of the `else` branch. -/
def noDataMessage (searchTerm : Option String) : String :=
  "No security data found for search term: " ++ jsString searchTerm

/-- The message of the `catch` branch. -/
def scrapingFailedMessage (message : String) : String :=
  "Scraping failed: " ++ message

/-- The message written after both loops. -/
def allFailedMessage (totalAttempts : Nat) : String :=
  "All scraping attempts failed (" ++ toString totalAttempts ++ " attempts)"

/-- How one pass through the body of the inner loop ends: with the `return` of the
success branch, or by going on to the next iteration. -/
inductive Step where
  | returned (w : World)
  | next (totalAttempts : Nat) (w : World)

/-- The condition `certikData && Object.keys(certikData.securityScores).length > 0`. -/
def usable (outcome : ScrapeOutcome) : Bool :=
  match outcome with
  | .data certikData => decide (0 < certikData.securityScores.keys.length)
  | .null => false
  | .throws _ => false

/-- A call of `updateCoinError` from the workflow of `coin`. -/
def callUpdateCoinError (reply : StoreReply) (now : Int) (coin : Coin) (coinGeckoId : String)
    (errorMessage : String) (w : World) : World :=
  let w := emit w (some coin) (.updateCoinError coinGeckoId errorMessage)
  { w with rows := updateCoinError reply now w.rows coinGeckoId errorMessage }

/-- The `catch` block of the attempt: record the error, then wait 5 seconds unless this
was the last attempt of the search term. -/
def catchBlock (a : AttemptEnv) (coin : Coin) (coinGeckoId : String) (attempt totalAttempts : Nat)
    (message : String) (w : World) : Step :=
  let w := callUpdateCoinError a.updateError a.errorClock coin coinGeckoId
    (scrapingFailedMessage message) w
  if attempt < w.scraper.maxRetries then
    .next totalAttempts (emit w (some coin) (.waitSeconds 5))
  else
    .next totalAttempts w

/-- The `else` branch of the attempt: record that no data was found and go on. -/
def noDataBranch (a : AttemptEnv) (coin : Coin) (coinGeckoId : String)
    (searchTerm : Option String) (totalAttempts : Nat) (w : World) : Step :=
  .next totalAttempts
    (callUpdateCoinError a.updateError a.errorClock coin coinGeckoId (noDataMessage searchTerm) w)

/-- The body of the inner loop of `processSingleCoin`, entered with `totalAttempts`
already incremented. -/
def attemptBody (env : Env) (coin : Coin) (coinGeckoId : String) (searchTerm : Option String)
    (attempt totalAttempts : Nat) (w : World) : Step :=
  let a := (env.coin coin).attempt totalAttempts
  let w := emit w (some coin) (.incrementScrapeAttempts coinGeckoId)
  let w := { w with rows := incrementScrapeAttempts a.selectAttempts a.updateAttempts w.rows coinGeckoId }
  let w := emit w (some coin) (.scrapeCertik searchTerm)
  match a.scrape with
  | .throws message => catchBlock a coin coinGeckoId attempt totalAttempts message w
  | .null => noDataBranch a coin coinGeckoId searchTerm totalAttempts w
  | .data certikData =>
    if 0 < certikData.securityScores.keys.length then
      let w := emit w (some coin) (.updateCoinCertikData coinGeckoId certikData)
      match updateCoinCertikData env.localTZA a.updateData a.nextUpdateClock a.lastUpdatedClock
          w.rows coinGeckoId certikData with
      | .ok rows =>
        .returned { w with
          rows := rows
          scraper := { w.scraper with successCount := w.scraper.successCount + 1 } }
      | .error message => catchBlock a coin coinGeckoId attempt totalAttempts message w
    else
      noDataBranch a coin coinGeckoId searchTerm totalAttempts w

/-- The inner loop `for (let attempt = 1; attempt <= this.maxRetries; attempt++)`, over the
attempt numbers still to come. -/
def forAttempts (env : Env) (coin : Coin) (coinGeckoId : String) (searchTerm : Option String) :
    List Nat → Nat → World → Step
  | [], totalAttempts, w => .next totalAttempts w
  | attempt :: rest, totalAttempts, w =>
    match attemptBody env coin coinGeckoId searchTerm attempt (totalAttempts + 1) w with
    | .returned w1 => .returned w1
    | .next totalAttempts1 w1 => forAttempts env coin coinGeckoId searchTerm rest totalAttempts1 w1

/-- The outer loop `for (const searchTerm of searchTerms)`. -/
def forSearchTerms (env : Env) (coin : Coin) (coinGeckoId : String) :
    List (Option String) → Nat → World → Step
  | [], totalAttempts, w => .next totalAttempts w
  | searchTerm :: rest, totalAttempts, w =>
    match forAttempts env coin coinGeckoId searchTerm (List.range' 1 w.scraper.maxRetries)
        totalAttempts w with
    | .returned w1 => .returned w1
    | .next totalAttempts1 w1 => forSearchTerms env coin coinGeckoId rest totalAttempts1 w1

/-- The method `processSingleCoin`; `Except.error` is a rejected promise. -/
def processSingleCoin (env : Env) (coin : Coin) (w : World) : Except String World :=
  match searchTerms env coin, coin.coin_gecko_id with
  | .error message, _ => .error message
  | .ok _, none => .error "Cannot read properties of null (reading \x27replace\x27)"
  | .ok terms, some coinGeckoId =>
    match forSearchTerms env coin coinGeckoId terms 0 w with
    | .returned w1 => .ok w1
    | .next totalAttempts w1 =>
      let w2 := callUpdateCoinError (env.coin coin).finalError (env.coin coin).finalClock coin
        coinGeckoId (allFailedMessage totalAttempts) w1
      .ok { w2 with scraper := { w2.scraper with failCount := w2.scraper.failCount + 1 } }

/-! ## The orchestrator -/

/-- The call `coins.slice(start, stop)`. -/
def slice (coins : List Coin) (start stop : Nat) : List Coin :=
  (coins.take stop).drop start

/-- One promise under `Promise.allSettled`: a rejected workflow is ignored. -/
def settle (env : Env) (w : World) (coin : Coin) : World :=
  match processSingleCoin env coin w with
  | .ok w1 => w1
  | .error _ => w

/-- The batch loop `for (let i = 0; i < coins.length; i += this.batchSize)`, from index `i`;
`none` when `fuel` iterations were not enough. The workflows of a batch are folded in list
order, whereas the source starts them all before it awaits them: the calls of two workflows of
one batch are interleaved in an actual run, the calls of each workflow keep their order. -/
def batchLoop (env : Env) (coins : List Coin) (fuel i : Nat) (w : World) : Option World :=
  if i < coins.length then
    match fuel with
    | 0 => none
    | fuel + 1 =>
      let batch := slice coins i (i + w.scraper.batchSize)
      let w := batch.foldl (settle env) w
      let w := emit w none (.allSettled batch)
      let w :=
        if i + w.scraper.batchSize < coins.length then emit w none (.waitSeconds 5) else w
      batchLoop env coins fuel (i + w.scraper.batchSize) w
  else
    some w

/-- The body of `scrapeAndUpdateDatabase` after the candidates were fetched; `coins` is
`none` when the query gave nothing. -/
def scrapeCoins (env : Env) (fuel : Nat) (coins : Option (List Coin)) (w : World) :
    Option (Summary × World) :=
  match coins with
  | none => some ({ success := 0, failed := 0, total := none }, w)
  | some [] => some ({ success := 0, failed := 0, total := none }, w)
  | some (c :: cs) =>
    match batchLoop env (c :: cs) fuel 0 w with
    | none => none
    | some w1 =>
      some ({ success := w1.scraper.successCount
              failed := w1.scraper.failCount
              total := some (c :: cs).length }, w1)

/-- The method `scrapeAndUpdateDatabase`. -/
def scrapeAndUpdateDatabase (env : Env) (fuel : Nat) (limit : Option Int) (w : World) :
    Option (Summary × World) :=
  scrapeCoins env fuel (some (getCoinsForCertikScraping env w.rows limit)) w

/-- The test `result.total === 0` of the scheduler in `cronScraper.js`. -/
def cronSeesNoCoins (result : Summary) : Bool :=
  decide (result.total = some 0)

/-! ## The plan of attempts -/

/-- The attempts the two loops of `processSingleCoin` go through when none succeeds:
each search term with the attempt numbers 1 to `maxRetries`, term by term. -/
def attemptPlan (maxRetries : Nat) : List (Option String) → List (Option String × Nat)
  | [] => []
  | searchTerm :: rest =>
    (List.range' 1 maxRetries).map (fun attempt => (searchTerm, attempt)) ++
      attemptPlan maxRetries rest

/-- The two loops as one loop over a list of planned attempts. -/
def runPlan (env : Env) (coin : Coin) (coinGeckoId : String) :
    List (Option String × Nat) → Nat → World → Step
  | [], totalAttempts, w => .next totalAttempts w
  | (searchTerm, attempt) :: rest, totalAttempts, w =>
    match attemptBody env coin coinGeckoId searchTerm attempt (totalAttempts + 1) w with
    | .returned w1 => .returned w1
    | .next totalAttempts1 w1 => runPlan env coin coinGeckoId rest totalAttempts1 w1

/-- An attempt succeeds when the result is usable and the success write is accepted. -/
def succeeds (a : AttemptEnv) : Bool :=
  usable a.scrape && decide (a.updateData = .ok)

/-- The calls of one attempt, in order, as `attemptBody` makes them. -/
def attemptCalls (maxRetries : Nat) (a : AttemptEnv) (coinGeckoId : String)
    (searchTerm : Option String) (attempt : Nat) : List Call :=
  let backoff : List Call := if attempt < maxRetries then [.waitSeconds 5] else []
  [.incrementScrapeAttempts coinGeckoId, .scrapeCertik searchTerm] ++
    match a.scrape with
    | .throws message => [.updateCoinError coinGeckoId (scrapingFailedMessage message)] ++ backoff
    | .null => [.updateCoinError coinGeckoId (noDataMessage searchTerm)]
    | .data certikData =>
      if 0 < certikData.securityScores.keys.length then
        [.updateCoinCertikData coinGeckoId certikData] ++
          match a.updateData with
          | .ok => []
          | .error message =>
            [.updateCoinError coinGeckoId
              (scrapingFailedMessage ("Database update failed: " ++ message))] ++ backoff
          | .throws message =>
            [.updateCoinError coinGeckoId (scrapingFailedMessage message)] ++ backoff
      else [.updateCoinError coinGeckoId (noDataMessage searchTerm)]

/-- The calls of the planned attempts numbered from `totalAttempts + 1`, one after the other. -/
def planCalls (maxRetries : Nat) (ce : CoinEnv) (coinGeckoId : String) :
    List (Option String × Nat) → Nat → List Call
  | [], _ => []
  | (searchTerm, attempt) :: rest, totalAttempts =>
    attemptCalls maxRetries (ce.attempt (totalAttempts + 1)) coinGeckoId searchTerm attempt ++
      planCalls maxRetries ce coinGeckoId rest (totalAttempts + 1)

/-- The calls of a workflow, tagged with its coin. -/
def tagged (coin : Coin) (calls : List Call) : List Event :=
  calls.map fun call => ⟨some coin, call⟩

/-- The search terms of the `scrapeCertik` calls of a log, in order. -/
def scrapedTerms (log : List Event) : List (Option String) :=
  log.filterMap fun e =>
    match e.call with
    | .scrapeCertik searchTerm => some searchTerm
    | _ => none

/-- The number of `waitSeconds` calls made by the workflow of `coin`. -/
def backoffWaits (coin : Coin) (log : List Event) : Nat :=
  (log.filter fun e => decide (e.task = some coin) &&
    (match e.call with
     | .waitSeconds _ => true
     | _ => false)).length

/-- The number of `incrementScrapeAttempts` calls of a log. -/
def incrementCalls (log : List Event) : Nat :=
  (log.filter fun e =>
    match e.call with
    | .incrementScrapeAttempts _ => true
    | _ => false).length

/-- The stored attempt counters of the rows with the given id. -/
def attemptsOf (rows : List Coin) (coinGeckoId : String) : List (Option Nat) :=
  (selectEq rows coinGeckoId).map fun r => r.certik_scrape_attempts

/-- The world a step ends in. -/
def Step.world : Step → World
  | .returned w => w
  | .next _ w => w

/-- The planned attempts of a coin with the given symbol and id. -/
def coinPlan (env : Env) (maxRetries : Nat) (coin : Coin) (symbol coinGeckoId : String) :
    List (Option String × Nat) :=
  attemptPlan maxRetries
    [coin.name, some (env.toUpperCase symbol), some (replaceDashes coinGeckoId)]

/-- A scrape result that is not usable: `null`, or an object whose `securityScores` has no key. -/
def NoUsableResult (outcome : ScrapeOutcome) : Prop :=
  outcome = .null ∨ ∃ d, outcome = .data d ∧ d.securityScores.keys = []

/-- The sequence of search terms the first `k` planned attempts use is a prefix of this one:
the name, the upper-cased symbol and the id with dashes replaced, each `maxRetries` times. -/
def plannedTerms (env : Env) (maxRetries : Nat) (coin : Coin) (symbol coinGeckoId : String) :
    List (Option String) :=
  List.replicate maxRetries coin.name ++
    List.replicate maxRetries (some (env.toUpperCase symbol)) ++
    List.replicate maxRetries (some (replaceDashes coinGeckoId))

/-- An attempt that ends in the `catch` block: `scrapeCertik` threw, or the result was usable
and `updateCoinCertikData` threw. -/
def endsInCatch (a : AttemptEnv) : Bool :=
  match a.scrape with
  | .throws _ => true
  | .null => false
  | .data d => decide (0 < d.securityScores.keys.length) && decide (a.updateData ≠ .ok)

/-- The number of planned attempts, numbered from `totalAttempts + 1`, that end in the `catch`
block and are not the last attempt of their search term. -/
def caughtBeforeLast (maxRetries : Nat) (ce : CoinEnv) :
    List (Option String × Nat) → Nat → Nat
  | [], _ => 0
  | (_, attempt) :: rest, totalAttempts =>
    (if endsInCatch (ce.attempt (totalAttempts + 1)) && decide (attempt < maxRetries) then 1 else 0) +
      caughtBeforeLast maxRetries ce rest (totalAttempts + 1)

/-- Two rows that agree on every column but `certik_last_error` and `certik_last_updated`. -/
def SameButError (r r1 : Coin) : Prop :=
  r1.coin_gecko_id = r.coin_gecko_id ∧ r1.symbol = r.symbol ∧ r1.name = r.name ∧
    r1.market_cap_rank = r.market_cap_rank ∧ r1.certik_data = r.certik_data ∧
    r1.certik_next_update = r.certik_next_update ∧
    r1.certik_scrape_attempts = r.certik_scrape_attempts

/-- The number of `waitSeconds(5)` calls made by the workflow of `coin`. -/
def fiveSecondWaits (coin : Coin) (log : List Event) : Nat :=
  (log.filter fun e => decide (e.task = some coin) && decide (e.call = .waitSeconds 5)).length

/-- The message of the error an attempt hands to its `catch` block, if it ends there: the
error thrown by `scrapeCertik`, or the one thrown by `updateCoinCertikData` on a usable
result. -/
def caughtMessage (a : AttemptEnv) : Option String :=
  match a.scrape with
  | .throws message => some message
  | .null => none
  | .data d =>
    if 0 < d.securityScores.keys.length then
      match a.updateData with
      | .ok => none
      | .error message => some ("Database update failed: " ++ message)
      | .throws message => some message
    else none

/-- The calls an attempt makes inside its `try` block: the increment, the scrape and, on a
usable result, the success write. -/
def callsInTry (a : AttemptEnv) (coinGeckoId : String) (searchTerm : Option String) :
    List Call :=
  [.incrementScrapeAttempts coinGeckoId, .scrapeCertik searchTerm] ++
    match a.scrape with
    | .data d =>
      if 0 < d.securityScores.keys.length then [.updateCoinCertikData coinGeckoId d] else []
    | .null => []
    | .throws _ => []

/-- The first of the attempts `1 .. n` of a coin that succeeds, counted from 0. -/
def firstSuccess (ce : CoinEnv) : Nat → Option Nat
  | 0 => none
  | n + 1 =>
    match firstSuccess ce n with
    | some j => some j
    | none => if succeeds (ce.attempt (n + 1)) then some n else none

/-- The calls `processSingleCoin(coin)` makes, in order: the planned attempts up to the first
that succeeds, or all of them and the closing error record; none when the search terms cannot
be built. -/
def workflowCalls (env : Env) (maxRetries : Nat) (coin : Coin) : List Call :=
  match coin.symbol, coin.coin_gecko_id with
  | some symbol, some coinGeckoId =>
    match firstSuccess (env.coin coin) (3 * maxRetries) with
    | some j =>
      planCalls maxRetries (env.coin coin) coinGeckoId
        ((coinPlan env maxRetries coin symbol coinGeckoId).take (j + 1)) 0
    | none =>
      planCalls maxRetries (env.coin coin) coinGeckoId
          (coinPlan env maxRetries coin symbol coinGeckoId) 0 ++
        [.updateCoinError coinGeckoId (allFailedMessage (3 * maxRetries))]
  | _, _ => []

/-- The events of the workflow of one coin. -/
def workflowOf (env : Env) (maxRetries : Nat) (coin : Coin) : List Event :=
  tagged coin (workflowCalls env maxRetries coin)

/-- The events of a log made by the workflow of `coin`. -/
def eventsOf (coin : Coin) (log : List Event) : List Event :=
  log.filter fun e => decide (e.task = some coin)

/-- The events that the entries of `coins` equal to `coin` contribute, one workflow for each
such entry. -/
def workflowsOf (env : Env) (maxRetries : Nat) (coin : Coin) (coins : List Coin) : List Event :=
  ((coins.filter fun c => decide (c = coin)).map (workflowOf env maxRetries)).flatten

/-! ## Batches -/

/-- The number `Math.ceil(n / b)` of batches for `n` candidates and batch size `b`. -/
def numBatches (n b : Nat) : Nat := (n + b - 1) / b

/-- The batch of iteration `k` (from 0) of the batch loop, where `i = k * batchSize`. -/
def batchAt (coins : List Coin) (batchSize k : Nat) : List Coin :=
  slice coins (k * batchSize) (k * batchSize + batchSize)

/-- The number of 5-second waits made by `scrapeAndUpdateDatabase` itself. -/
def interBatchWaits (log : List Event) : Nat :=
  (log.filter fun e => decide (e.task = none) && decide (e.call = .waitSeconds 5)).length

/-- The part of a run's log that batch `k` contributes: the calls of its workflows
(`segment k`), the settling of the batch, and the wait unless it is the last batch. -/
def batchLog (coins : List Coin) (batchSize : Nat) (segment : Nat → List Event) (k : Nat) :
    List Event :=
  segment k ++ [⟨none, .allSettled (batchAt coins batchSize k)⟩] ++
    if k + 1 < numBatches coins.length batchSize then [⟨none, .waitSeconds 5⟩] else []

/-- The events of a log made by workflows (not by the orchestrator). -/
def workflowEvents (log : List Event) : List Event :=
  log.filter fun e => e.task.isSome

/-- A coin whose search terms can be built. -/
def healthy (coin : Coin) : Bool :=
  coin.symbol.isSome && coin.coin_gecko_id.isSome

/-- The same world with `earlier` put in front of its log. -/
def World.prepend (earlier : List Event) (w : World) : World :=
  { w with log := earlier ++ w.log }

/-- The same step with `earlier` put in front of the log of its world. -/
def Step.prepend (earlier : List Event) : Step → Step
  | .returned w => .returned (w.prepend earlier)
  | .next totalAttempts w => .next totalAttempts (w.prepend earlier)

/-- Two worlds with the same scraper object, the same table and the same workflow events. -/
def SameCore (w w1 : World) : Prop :=
  w.scraper = w1.scraper ∧ w.rows = w1.rows ∧ workflowEvents w.log = workflowEvents w1.log

/-! ## The page extractor -/

/-- What the browser and the page answer during one call of `scrapeCertik`. An `Except.error`
is an error thrown by the read; `$$eval` on a selector that matches no element does not
throw, it yields the empty array. -/
structure PageEnv where
  /-- Error thrown by `browser.newPage()`, if any. -/
  newPage : Option String
  /-- Error thrown by a step from `setUserAgent` to the wait for the list box, if any. -/
  beforeOptions : Option String
  /-- The number of dropdown options counted by `$$eval`. -/
  optionsCount : Nat
  /-- Error thrown by a step from the wait for the first option to the click on it, if any. -/
  afterOptions : Option String
  /-- The wait for the average-score element and the read of its text. -/
  averageScore : Except String String
  /-- The read of the metric buttons. -/
  additionalMetrics : Except String (List LabelValue)
  /-- The bulk read of all label/value pairs. -/
  allData : Except String (List LabelValue)
  /-- The read of the daily inflows. -/
  dailyInflows : Except String (List LabelValue)
  /-- Error thrown by `page.close()`, if any. -/
  close : Option String

/-- The set `communityLabels` of `scrapeCertik`. -/
def communityLabels : List String :=
  ["Total Tweets (24h)", "Twitter Account Age", "Twitter Followers (24h)",
    "Twitter Activity Indicator"]

/-- The set `financialLabels` of `scrapeCertik`. -/
def financialLabels : List String :=
  ["Token Price", "Volume (24h)", "Market Cap", "Volume by Exchange Type (24h)",
    "Market Cap Held"]

/-- The call `labels.has(d.label)`: an `undefined` label is in no set. -/
def hasLabel (labels : List String) (d : LabelValue) : Bool :=
  match d.label with
  | some label => decide (label ∈ labels)
  | none => false

/-- The message of the error thrown when the dropdown is empty. -/
def noOptionsMessage (searchTerm : Option String) : String :=
  "No dropdown options found for \"" ++ jsString searchTerm ++ "\""

/-- The part of the `try` block of `scrapeCertik` after the detail page was reached and the
settle delay elapsed; `Except.error` is an error that leaves the block. -/
def extractDetail (p : PageEnv) (searchTerm : Option String) : Except String CertikData :=
  let securityScores : SecurityScores := { averageScore := none, additionalMetrics := none }
  let securityScores :=
    match p.averageScore with
    | .ok text => { securityScores with averageScore := some text }
    | .error _ => securityScores
  let securityScores :=
    match p.additionalMetrics with
    | .ok metrics => { securityScores with additionalMetrics := some metrics }
    | .error _ => securityScores
  match p.allData with
  | .error message => .error message
  | .ok allData =>
    let communityEngagement := allData.filter (hasLabel communityLabels)
    let metrics := allData.filter (hasLabel financialLabels)
    let dailyInflows :=
      match p.dailyInflows with
      | .ok inflows => some inflows
      | .error _ => none
    .ok { project := searchTerm
          securityScores := securityScores
          communityEngagement := communityEngagement
          financialData := { metrics := some metrics, dailyInflows := dailyInflows } }

/-- The `try` block of `scrapeCertik`. -/
def scrapeTry (p : PageEnv) (searchTerm : Option String) : Except String CertikData :=
  match p.beforeOptions with
  | some message => .error message
  | none =>
    if p.optionsCount = 0 then .error (noOptionsMessage searchTerm)
    else
      match p.afterOptions with
      | some message => .error message
      | none => extractDetail p searchTerm

/-- The function `scrapeCertik`: an error of the `try` block is caught and `null` returned;
an error of `browser.newPage()` or of `page.close()` in the `finally` block is thrown. -/
def scrapeCertik (p : PageEnv) (searchTerm : Option String) : ScrapeOutcome :=
  match p.newPage with
  | some message => .throws message
  | none =>
    let returned : ScrapeOutcome :=
      match scrapeTry p searchTerm with
      | .ok result => .data result
      | .error _ => .null
    match p.close with
    | some message => .throws message
    | none => returned

/-- A detail page that was reached without error and is closed without error, with the
given answers to the four reads. -/
def detailPage (averageScore : Except String String)
    (additionalMetrics allData dailyInflows : Except String (List LabelValue)) : PageEnv :=
  { newPage := none
    beforeOptions := none
    optionsCount := 1
    afterOptions := none
    averageScore := averageScore
    additionalMetrics := additionalMetrics
    allData := allData
    dailyInflows := dailyInflows
    close := none }

/-! ## The candidate query, step by step -/

/-- The `try` block of `getCoinsForCertikScraping`; `Except.error` is the error it throws. -/
def queryCandidates (env : Env) (rows : List Coin) (limit : Option Int) :
    Except String (List Coin) :=
  let query := (rows.filter (needsCertikData env.queryNow)).insertionSort rankLE
  match env.query with
  | .ok =>
    .ok (match limit with
      | some n => if 0 < n then query.take n.toNat else query
      | none => query)
  | .error message => .error message
  | .throws message => .error message

/-- The rows the filter of the candidate query keeps, as the claim words it: no data, or a
refresh horizon that is not after `now`. -/
def dueAtOrBefore (now : Int) (r : Coin) : Bool :=
  r.certik_data.isNone ||
    (match r.certik_next_update with
     | some t => decide (t ≤ now)
     | none => false)

/-! ## Concrete inputs -/

/-- The upper-casing used by the concrete environments: the letters a to z, and the special
casings of the two other letters that occur in the examples (the sharp s gives SS, the e with
acute accent gives its capital). On the strings of the examples it agrees with
`String.prototype.toUpperCase`. -/
def exampleUpperCase (s : String) : String :=
  ⟨s.data.flatMap fun c =>
    if c = 'ß' then ['S', 'S'] else if c = 'é' then ['É'] else [c.toUpper]⟩

/-- A usable result: `securityScores` holds the average score. -/
def exampleData : CertikData :=
  { project := some "Bitcoin Cash"
    securityScores := { averageScore := some "91.5", additionalMetrics := none }
    communityEngagement := []
    financialData := { metrics := some [], dailyInflows := none } }

/-- A result with empty `securityScores` and a non-empty `communityEngagement`. -/
def exampleEmptyScores : CertikData :=
  { project := some "Bitcoin Cash"
    securityScores := { averageScore := none, additionalMetrics := none }
    communityEngagement := [⟨some "Twitter Followers (24h)", some "12"⟩]
    financialData := { metrics := some [], dailyInflows := none } }

/-- A stored coin that was never scraped. -/
def exampleCoin : Coin :=
  { coin_gecko_id := some "bitcoin-cash"
    symbol := some "bch"
    name := some "Bitcoin Cash"
    market_cap_rank := some 1
    certik_data := none
    certik_last_updated := none
    certik_next_update := none
    certik_scrape_attempts := some 0
    certik_last_error := none }

/-- A stored coin that holds data from an earlier run and an error. -/
def exampleStaleCoin : Coin :=
  { coin_gecko_id := some "ethereum"
    symbol := some "eth"
    name := some "Ethereum"
    market_cap_rank := some 2
    certik_data := some exampleEmptyScores
    certik_last_updated := some 5
    certik_next_update := some 6
    certik_scrape_attempts := some 4
    certik_last_error := some "x" }

/-- A coin whose symbol has a letter with a special upper-casing and whose id has two
dashes. -/
def exampleSharpCoin : Coin :=
  { coin_gecko_id := some "strasse-finance-token"
    symbol := some "straße"
    name := some "Straße Finance"
    market_cap_rank := some 4
    certik_data := none
    certik_last_updated := none
    certik_next_update := none
    certik_scrape_attempts := some 0
    certik_last_error := none }

/-- A row whose `symbol` is `null`. -/
def exampleFaultyCoin : Coin :=
  { coin_gecko_id := some "broken"
    symbol := none
    name := some "Broken"
    market_cap_rank := some 3
    certik_data := none
    certik_last_updated := none
    certik_next_update := none
    certik_scrape_attempts := some 0
    certik_last_error := none }

/-- An attempt with the given scrape outcome in which the store accepts every request. -/
def attemptWith (outcome : ScrapeOutcome) : AttemptEnv :=
  { selectAttempts := .ok
    updateAttempts := .ok
    scrape := outcome
    updateData := .ok
    nextUpdateClock := 1000
    lastUpdatedClock := 1000
    updateError := .ok
    errorClock := 1000 }

/-- An environment in which every attempt of every coin has the given outcome, the store
accepts every request and local time is UTC. -/
def envAlways (outcome : ScrapeOutcome) : Env :=
  { localTZA := fun _ _ => 0
    toUpperCase := exampleUpperCase
    coin := fun _ => { attempt := fun _ => attemptWith outcome, finalError := .ok, finalClock := 2000 }
    query := .ok
    queryNow := 3000 }

/-- An environment in which the fourth attempt of every coin is the first with a usable result. -/
def envFourth : Env :=
  { localTZA := fun _ _ => 0
    toUpperCase := exampleUpperCase
    coin := fun _ =>
      { attempt := fun k => attemptWith (if k = 4 then .data exampleData else .null)
        finalError := .ok
        finalClock := 2000 }
    query := .ok
    queryNow := 3000 }

/-- A freshly constructed scraper with the default options over a table of three rows. -/
def exampleWorld : World :=
  { scraper := CertikScraperSupabase.new { batchSize := none, maxRetries := none }
    rows := [exampleCoin, exampleStaleCoin, exampleFaultyCoin]
    log := [] }

/-- Offsets of the zone America/New_York around 10 March 2024, when daylight saving time
began at 07:00 UTC: five hours behind UTC before, four hours behind after. A local time is
read with the offset before the transition up to 03:00 local, the end of the skipped hour. -/
def newYorkTZA (t : Int) (isUTC : Bool) : Int :=
  if isUTC then
    (if t < 1710054000000 then -18000000 else -14400000)
  else
    (if t < 1710039600000 then -18000000 else -14400000)

/-- The instant 2024-03-09T12:00:00Z in milliseconds. -/
def march9Noon : Int := 1709985600000

/-- The same table under a scraper constructed with `batchSize: 2`. -/
def exampleWorldOfTwo : World :=
  { scraper := CertikScraperSupabase.new { batchSize := some 2, maxRetries := none }
    rows := [exampleCoin, exampleStaleCoin, exampleFaultyCoin]
    log := [] }

/-- A detail page without security-score section: the average-score element never appears
and no metric button is matched; the other sections are there. -/
def pageWithoutScores : PageEnv :=
  detailPage (.error "Waiting for selector failed: 30000ms exceeded") (.ok [])
    (.ok [⟨some "Twitter Followers (24h)", some "12"⟩, ⟨some "Market Cap", some "$1"⟩,
      ⟨some "Holders", some "7"⟩, ⟨none, some "9"⟩])
    (.ok [])

/-- A detail page on which only the bulk read of label/value pairs fails. -/
def pageWithoutBulkRead : PageEnv :=
  detailPage (.ok "91.5") (.ok [⟨some "Code Security", some "90"⟩])
    (.error "Execution context was destroyed") (.ok [])

/-- An environment in which the candidate query fails. -/
def envQueryFails : Env :=
  { localTZA := fun _ _ => 0
    toUpperCase := exampleUpperCase
    coin := fun _ => { attempt := fun _ => attemptWith .null, finalError := .ok, finalClock := 2000 }
    query := .error "fetch failed"
    queryNow := 3000 }

/-- A stored coin that holds data and whose refresh horizon is exactly the `now()` of
`envAlways`. -/
def exampleCoinDueNow : Coin :=
  { coin_gecko_id := some "solana"
    symbol := some "sol"
    name := some "Solana"
    market_cap_rank := some 5
    certik_data := some exampleData
    certik_last_updated := some 1000
    certik_next_update := some 3000
    certik_scrape_attempts := some 1
    certik_last_error := none }

/-! ## Lemmas on the workflow of one coin -/

theorem updateEq_map_data (rows : List Coin) (id : String) (patch : Coin → Coin)
    (h : ∀ r, (patch r).certik_data = r.certik_data) :
    (updateEq rows id patch).map (fun r => r.certik_data) = rows.map fun r => r.certik_data := by
  simp only [updateEq, List.map_map]
  apply List.map_congr_left
  intro r _
  simp only [Function.comp]
  split <;> simp [h]

theorem updateCoinError_map_data (reply : StoreReply) (now : Int) (rows : List Coin) (id msg : String) :
    (updateCoinError reply now rows id msg).map (fun r => r.certik_data) =
      rows.map fun r => r.certik_data := by
  cases reply <;> simp [updateCoinError, updateEq_map_data]

theorem incrementScrapeAttempts_map_data (sel upd : StoreReply) (rows : List Coin) (id : String) :
    (incrementScrapeAttempts sel upd rows id).map (fun r => r.certik_data) =
      rows.map fun r => r.certik_data := by
  unfold incrementScrapeAttempts
  split
  · split
    · split <;> simp [updateEq_map_data]
    · rfl
  · rfl
  · rfl

/-- The calls one attempt adds to the log are those of `attemptCalls`, whatever the table holds. -/
theorem attemptBody_log (env : Env) (coin : Coin) (id : String) (term : Option String)
    (attempt total : Nat) (w : World) :
    (attemptBody env coin id term attempt total w).world.log =
      w.log ++ tagged coin
        (attemptCalls w.scraper.maxRetries ((env.coin coin).attempt total) id term attempt) := by
  unfold attemptBody attemptCalls
  cases hs : ((env.coin coin).attempt total).scrape with
  | null => simp [hs, noDataBranch, callUpdateCoinError, emit, Step.world, tagged]
  | throws m =>
    by_cases hlt : attempt < w.scraper.maxRetries <;>
      simp [hs, catchBlock, callUpdateCoinError, emit, Step.world, tagged, hlt]
  | data d =>
    by_cases hk : 0 < d.securityScores.keys.length
    · cases hu : ((env.coin coin).attempt total).updateData <;>
        by_cases hlt : attempt < w.scraper.maxRetries <;>
        simp [hs, catchBlock, callUpdateCoinError, emit, Step.world, tagged, hlt, hk, hu,
          updateCoinCertikData]
    · simp [hs, noDataBranch, callUpdateCoinError, emit, Step.world, tagged, hk]

theorem updateCoinCertikData_not_ok (tz : Int → Bool → Int) (reply : StoreReply) (c1 c2 : Int)
    (rows : List Coin) (id : String) (d : CertikData) (h : reply ≠ .ok) :
    ∃ m, updateCoinCertikData tz reply c1 c2 rows id d = .error m := by
  cases reply with
  | ok => exact absurd rfl h
  | error m => exact ⟨_, rfl⟩
  | throws m => exact ⟨_, rfl⟩

/-- An attempt that succeeds returns from the workflow and counts one success. -/
theorem attemptBody_of_succeeds (env : Env) (coin : Coin) (id : String) (term : Option String)
    (attempt total : Nat) (w : World) (h : succeeds ((env.coin coin).attempt total) = true) :
    ∃ w1, attemptBody env coin id term attempt total w = .returned w1 ∧
      w1.scraper = { w.scraper with successCount := w.scraper.successCount + 1 } := by
  unfold succeeds usable at h
  unfold attemptBody
  cases hs : ((env.coin coin).attempt total).scrape with
  | null => simp [hs] at h
  | throws m => simp [hs] at h
  | data d =>
    simp only [hs, Bool.and_eq_true, decide_eq_true_eq] at h
    simp [hs, h.1, h.2, updateCoinCertikData, emit]

/-- An attempt that does not succeed goes on to the next one, with the scraper object and every
`certik_data` as they were. -/
theorem attemptBody_of_fails (env : Env) (coin : Coin) (id : String) (term : Option String)
    (attempt total : Nat) (w : World) (h : succeeds ((env.coin coin).attempt total) = false) :
    ∃ w1, attemptBody env coin id term attempt total w = .next total w1 ∧
      w1.scraper = w.scraper ∧
      w1.rows.map (fun r => r.certik_data) = w.rows.map fun r => r.certik_data := by
  unfold succeeds usable at h
  unfold attemptBody
  cases hs : ((env.coin coin).attempt total).scrape with
  | null =>
    simp [hs, noDataBranch, callUpdateCoinError, emit, updateCoinError_map_data,
      incrementScrapeAttempts_map_data]
  | throws m =>
    by_cases hlt : attempt < w.scraper.maxRetries <;>
      simp [hs, catchBlock, callUpdateCoinError, emit, hlt, updateCoinError_map_data,
        incrementScrapeAttempts_map_data]
  | data d =>
    by_cases hk : 0 < d.securityScores.keys.length
    · simp only [hs, hk, decide_True, Bool.true_and, decide_eq_false_iff_not] at h
      obtain ⟨m, hm⟩ := updateCoinCertikData_not_ok env.localTZA _
        ((env.coin coin).attempt total).nextUpdateClock
        ((env.coin coin).attempt total).lastUpdatedClock
        (incrementScrapeAttempts ((env.coin coin).attempt total).selectAttempts
          ((env.coin coin).attempt total).updateAttempts w.rows id) id d h
      by_cases hlt : attempt < w.scraper.maxRetries <;>
        simp [hs, catchBlock, callUpdateCoinError, emit, hlt, hk, hm, updateCoinError_map_data,
          incrementScrapeAttempts_map_data]
    · simp [hs, noDataBranch, callUpdateCoinError, emit, hk, updateCoinError_map_data,
        incrementScrapeAttempts_map_data]

theorem attemptBody_next (env : Env) (coin : Coin) (id : String) (term : Option String)
    (attempt total : Nat) (w : World) (t1 : Nat) (w1 : World)
    (h : attemptBody env coin id term attempt total w = .next t1 w1) :
    t1 = total ∧ w1.scraper = w.scraper := by
  cases hs : succeeds ((env.coin coin).attempt total) with
  | true =>
    obtain ⟨w2, h2, _⟩ := attemptBody_of_succeeds env coin id term attempt total w hs
    rw [h2] at h
    cases h
  | false =>
    obtain ⟨w2, h2, hsc, _⟩ := attemptBody_of_fails env coin id term attempt total w hs
    rw [h2] at h
    cases h
    exact ⟨rfl, hsc⟩

theorem forAttempts_eq_runPlan (env : Env) (coin : Coin) (id : String) (term : Option String)
    (l : List Nat) (total : Nat) (w : World) :
    forAttempts env coin id term l total w =
      runPlan env coin id (l.map fun attempt => (term, attempt)) total w := by
  induction l generalizing total w with
  | nil => rfl
  | cons a rest ih =>
    simp only [forAttempts, List.map_cons, runPlan]
    cases attemptBody env coin id term a (total + 1) w with
    | returned w1 => rfl
    | next t1 w1 => exact ih t1 w1

theorem runPlan_append (env : Env) (coin : Coin) (id : String)
    (p q : List (Option String × Nat)) (total : Nat) (w : World) :
    runPlan env coin id (p ++ q) total w =
      match runPlan env coin id p total w with
      | .returned w1 => .returned w1
      | .next t1 w1 => runPlan env coin id q t1 w1 := by
  induction p generalizing total w with
  | nil => rfl
  | cons x rest ih =>
    obtain ⟨term, a⟩ := x
    simp only [List.cons_append, runPlan]
    cases attemptBody env coin id term a (total + 1) w with
    | returned w1 => rfl
    | next t1 w1 => exact ih t1 w1

theorem runPlan_next (env : Env) (coin : Coin) (id : String)
    (p : List (Option String × Nat)) (total : Nat) (w : World) (t1 : Nat) (w1 : World)
    (h : runPlan env coin id p total w = .next t1 w1) :
    t1 = total + p.length ∧ w1.scraper = w.scraper := by
  induction p generalizing total w with
  | nil =>
    simp only [runPlan] at h
    cases h
    exact ⟨rfl, rfl⟩
  | cons x rest ih =>
    obtain ⟨term, a⟩ := x
    simp only [runPlan] at h
    cases hb : attemptBody env coin id term a (total + 1) w with
    | returned w2 => rw [hb] at h; cases h
    | next t2 w2 =>
      rw [hb] at h
      obtain ⟨ht, hsc⟩ := attemptBody_next env coin id term a (total + 1) w t2 w2 hb
      obtain ⟨ht1, hsc1⟩ := ih t2 w2 h
      refine ⟨?_, hsc1.trans hsc⟩
      simp only [List.length_cons]
      omega

/-- The two nested loops are one loop over the plan of attempts. -/
theorem forSearchTerms_eq_runPlan (env : Env) (coin : Coin) (id : String)
    (terms : List (Option String)) (total : Nat) (w : World) :
    forSearchTerms env coin id terms total w =
      runPlan env coin id (attemptPlan w.scraper.maxRetries terms) total w := by
  induction terms generalizing total w with
  | nil => rfl
  | cons term rest ih =>
    simp only [forSearchTerms, attemptPlan, runPlan_append, forAttempts_eq_runPlan]
    cases hr : runPlan env coin id
        ((List.range' 1 w.scraper.maxRetries).map fun attempt => (term, attempt)) total w with
    | returned w1 => rfl
    | next t1 w1 =>
      simp only
      rw [ih t1 w1, (runPlan_next env coin id _ total w t1 w1 hr).2]

theorem length_attemptPlan (m : Nat) (terms : List (Option String)) :
    (attemptPlan m terms).length = terms.length * m := by
  induction terms with
  | nil => simp [attemptPlan]
  | cons t rest ih => simp [attemptPlan, ih, Nat.succ_mul, Nat.add_comm]

theorem tagged_append (coin : Coin) (a b : List Call) :
    tagged coin (a ++ b) = tagged coin a ++ tagged coin b := by
  simp [tagged]

theorem planCalls_append (m : Nat) (ce : CoinEnv) (id : String)
    (p q : List (Option String × Nat)) (total : Nat) :
    planCalls m ce id (p ++ q) total =
      planCalls m ce id p total ++ planCalls m ce id q (total + p.length) := by
  induction p generalizing total with
  | nil => simp [planCalls]
  | cons x rest ih =>
    obtain ⟨term, a⟩ := x
    rw [List.cons_append]
    show attemptCalls m (ce.attempt (total + 1)) id term a ++
        planCalls m ce id (rest ++ q) (total + 1) =
      (attemptCalls m (ce.attempt (total + 1)) id term a ++ planCalls m ce id rest (total + 1)) ++
        planCalls m ce id q (total + (rest.length + 1))
    rw [ih, List.append_assoc, show total + 1 + rest.length = total + (rest.length + 1) by omega]

/-- Planned attempts that all fail are all made, in order. -/
theorem runPlan_fails (env : Env) (coin : Coin) (id : String)
    (p : List (Option String × Nat)) (total : Nat) (w : World)
    (hall : ∀ i, i < p.length → succeeds ((env.coin coin).attempt (total + 1 + i)) = false) :
    ∃ w1, runPlan env coin id p total w = .next (total + p.length) w1 ∧
      w1.scraper = w.scraper ∧
      w1.rows.map (fun r => r.certik_data) = w.rows.map (fun r => r.certik_data) ∧
      w1.log = w.log ++ tagged coin (planCalls w.scraper.maxRetries (env.coin coin) id p total) := by
  induction p generalizing total w with
  | nil => exact ⟨w, rfl, rfl, rfl, by simp [planCalls, tagged]⟩
  | cons x rest ih =>
    obtain ⟨term, a⟩ := x
    have h0 : succeeds ((env.coin coin).attempt (total + 1)) = false := by
      have := hall 0 (by simp)
      simpa using this
    obtain ⟨w2, hb, hsc, hdata⟩ := attemptBody_of_fails env coin id term a (total + 1) w h0
    have hlog := attemptBody_log env coin id term a (total + 1) w
    rw [hb] at hlog
    simp only [Step.world] at hlog
    have hrest : ∀ i, i < rest.length →
        succeeds ((env.coin coin).attempt (total + 1 + 1 + i)) = false := by
      intro i hi
      have := hall (i + 1) (by simpa using hi)
      rw [show total + 1 + (i + 1) = total + 1 + 1 + i by omega] at this
      exact this
    obtain ⟨w1, hr, hsc1, hdata1, hlog1⟩ := ih (total + 1) w2 hrest
    refine ⟨w1, ?_, hsc1.trans hsc, hdata1.trans hdata, ?_⟩
    · simp only [runPlan, hb, hr, List.length_cons]
      congr 1
      omega
    · rw [hlog1, hlog, hsc, planCalls, tagged_append, List.append_assoc]

/-- The loop returns at the first planned attempt that succeeds. -/
theorem runPlan_succeeds (env : Env) (coin : Coin) (id : String)
    (pre : List (Option String × Nat)) (x : Option String × Nat)
    (post : List (Option String × Nat)) (total : Nat) (w : World)
    (hpre : ∀ i, i < pre.length → succeeds ((env.coin coin).attempt (total + 1 + i)) = false)
    (hx : succeeds ((env.coin coin).attempt (total + 1 + pre.length)) = true) :
    ∃ w1, runPlan env coin id (pre ++ x :: post) total w = .returned w1 ∧
      w1.scraper = { w.scraper with successCount := w.scraper.successCount + 1 } ∧
      w1.log = w.log ++
        tagged coin (planCalls w.scraper.maxRetries (env.coin coin) id (pre ++ [x]) total) := by
  obtain ⟨w2, hr, hsc, _, hlog⟩ := runPlan_fails env coin id pre total w hpre
  obtain ⟨term, a⟩ := x
  have hx1 : succeeds ((env.coin coin).attempt (total + pre.length + 1)) = true := by
    rw [show total + pre.length + 1 = total + 1 + pre.length by omega]
    exact hx
  obtain ⟨w1, hb, hsc1⟩ := attemptBody_of_succeeds env coin id term a (total + pre.length + 1) w2 hx1
  have hlog1 := attemptBody_log env coin id term a (total + pre.length + 1) w2
  rw [hb] at hlog1
  simp only [Step.world] at hlog1
  refine ⟨w1, ?_, ?_, ?_⟩
  · rw [runPlan_append, hr]
    simp only [runPlan, hb]
  · rw [hsc1, hsc]
  · rw [hlog1, hlog, hsc, planCalls_append, tagged_append, List.append_assoc]
    simp [planCalls]

theorem length_coinPlan (env : Env) (m : Nat) (coin : Coin) (sym id : String) :
    (coinPlan env m coin sym id).length = 3 * m := by
  simp [coinPlan, length_attemptPlan]

theorem processSingleCoin_eq (env : Env) (coin : Coin) (sym id : String) (w : World)
    (hsym : coin.symbol = some sym) (hid : coin.coin_gecko_id = some id) :
    processSingleCoin env coin w =
      match runPlan env coin id (coinPlan env w.scraper.maxRetries coin sym id) 0 w with
      | .returned w1 => .ok w1
      | .next totalAttempts w1 =>
        let w2 := callUpdateCoinError (env.coin coin).finalError (env.coin coin).finalClock coin
          id (allFailedMessage totalAttempts) w1
        .ok { w2 with scraper := { w2.scraper with failCount := w2.scraper.failCount + 1 } } := by
  simp only [processSingleCoin, searchTerms, hsym, hid, forSearchTerms_eq_runPlan, coinPlan]

/-- The workflow of a coin whose attempts all fail: every planned attempt, then the closing
error record, one failure counted, every `certik_data` as it was. -/
theorem processSingleCoin_fails (env : Env) (coin : Coin) (sym id : String) (w : World)
    (hsym : coin.symbol = some sym) (hid : coin.coin_gecko_id = some id)
    (hall : ∀ i, i < 3 * w.scraper.maxRetries →
      succeeds ((env.coin coin).attempt (i + 1)) = false) :
    ∃ w1, processSingleCoin env coin w = .ok w1 ∧
      w1.scraper = { w.scraper with failCount := w.scraper.failCount + 1 } ∧
      w1.rows.map (fun r => r.certik_data) = w.rows.map (fun r => r.certik_data) ∧
      w1.log = w.log ++ tagged coin
        (planCalls w.scraper.maxRetries (env.coin coin) id
            (coinPlan env w.scraper.maxRetries coin sym id) 0 ++
          [.updateCoinError id (allFailedMessage (3 * w.scraper.maxRetries))]) := by
  have hall1 : ∀ i, i < (coinPlan env w.scraper.maxRetries coin sym id).length →
      succeeds ((env.coin coin).attempt (0 + 1 + i)) = false := by
    intro i hi
    rw [length_coinPlan] at hi
    rw [show 0 + 1 + i = i + 1 by omega]
    exact hall i hi
  obtain ⟨w1, hr, hsc, hdata, hlog⟩ := runPlan_fails env coin id _ 0 w hall1
  rw [processSingleCoin_eq env coin sym id w hsym hid, hr]
  refine ⟨_, rfl, ?_, ?_, ?_⟩
  · simp [callUpdateCoinError, emit, hsc]
  · simp [callUpdateCoinError, emit, updateCoinError_map_data, hdata]
  · simp [callUpdateCoinError, emit, hlog, tagged, length_coinPlan]

/-- The workflow of a coin whose attempt `j + 1` is the first to succeed: the first `j + 1`
planned attempts and one success counted. -/
theorem processSingleCoin_succeeds (env : Env) (coin : Coin) (sym id : String) (w : World)
    (hsym : coin.symbol = some sym) (hid : coin.coin_gecko_id = some id) (j : Nat)
    (hj : j < 3 * w.scraper.maxRetries)
    (hpre : ∀ i, i < j → succeeds ((env.coin coin).attempt (i + 1)) = false)
    (hx : succeeds ((env.coin coin).attempt (j + 1)) = true) :
    ∃ w1, processSingleCoin env coin w = .ok w1 ∧
      w1.scraper = { w.scraper with successCount := w.scraper.successCount + 1 } ∧
      w1.log = w.log ++ tagged coin
        (planCalls w.scraper.maxRetries (env.coin coin) id
          ((coinPlan env w.scraper.maxRetries coin sym id).take (j + 1)) 0) := by
  have hlen := length_coinPlan env w.scraper.maxRetries coin sym id
  have hjl : j < (coinPlan env w.scraper.maxRetries coin sym id).length := by omega
  have hsplit : coinPlan env w.scraper.maxRetries coin sym id =
      (coinPlan env w.scraper.maxRetries coin sym id).take j ++
        (coinPlan env w.scraper.maxRetries coin sym id)[j] ::
          (coinPlan env w.scraper.maxRetries coin sym id).drop (j + 1) := by
    rw [← List.drop_eq_getElem_cons hjl, List.take_append_drop]
  have htake : (coinPlan env w.scraper.maxRetries coin sym id).take (j + 1) =
      (coinPlan env w.scraper.maxRetries coin sym id).take j ++
        [(coinPlan env w.scraper.maxRetries coin sym id)[j]] := by
    rw [List.take_succ, List.getElem?_eq_getElem hjl]
    rfl
  have hlt : ((coinPlan env w.scraper.maxRetries coin sym id).take j).length = j := by
    rw [List.length_take]
    omega
  have hpre1 : ∀ i, i < ((coinPlan env w.scraper.maxRetries coin sym id).take j).length →
      succeeds ((env.coin coin).attempt (0 + 1 + i)) = false := by
    intro i hi
    rw [hlt] at hi
    rw [show 0 + 1 + i = i + 1 by omega]
    exact hpre i hi
  have hx1 : succeeds ((env.coin coin).attempt
      (0 + 1 + ((coinPlan env w.scraper.maxRetries coin sym id).take j).length)) = true := by
    rw [hlt, show 0 + 1 + j = j + 1 by omega]
    exact hx
  obtain ⟨w1, hr, hsc, hlog⟩ := runPlan_succeeds env coin id _
    ((coinPlan env w.scraper.maxRetries coin sym id)[j]) ((coinPlan env w.scraper.maxRetries coin sym id).drop (j + 1))
    0 w hpre1 hx1
  rw [← hsplit] at hr
  rw [processSingleCoin_eq env coin sym id w hsym hid, hr]
  exact ⟨w1, rfl, hsc, by rw [hlog, htake]⟩

/-- An update that keeps the id updates exactly the selected rows. -/
theorem selectEq_updateEq (rows : List Coin) (id : String) (patch : Coin → Coin)
    (h : ∀ r, (patch r).coin_gecko_id = r.coin_gecko_id) :
    selectEq (updateEq rows id patch) id = (selectEq rows id).map patch := by
  induction rows with
  | nil => rfl
  | cons r rest ih =>
    simp only [selectEq, updateEq, List.map_cons] at ih ⊢
    by_cases hr : r.coin_gecko_id = some id
    · simp [hr, h, List.filter_cons, ih]
    · simp [hr, List.filter_cons, ih]

theorem attemptsOf_updateCoinError (reply : StoreReply) (now : Int) (rows : List Coin)
    (id msg : String) :
    attemptsOf (updateCoinError reply now rows id msg) id = attemptsOf rows id := by
  cases reply with
  | ok =>
    simp only [updateCoinError, attemptsOf]
    rw [selectEq_updateEq, List.map_map]
    · rfl
    · intro r; rfl
  | error m => rfl
  | throws m => rfl

theorem lastError_updateCoinError_ok (now : Int) (rows : List Coin) (id msg : String) :
    (selectEq (updateCoinError .ok now rows id msg) id).map (fun r => r.certik_last_error) =
      (selectEq rows id).map fun _ => some msg := by
  simp only [updateCoinError]
  rw [selectEq_updateEq, List.map_map]
  · rfl
  · intro r; rfl

theorem attemptsOf_incrementScrapeAttempts (rows : List Coin) (id : String) (x : Option Nat)
    (h : attemptsOf rows id = [x]) :
    attemptsOf (incrementScrapeAttempts .ok .ok rows id) id = [some (orDefault x 0 + 1)] := by
  unfold attemptsOf at h
  cases hsel : selectEq rows id with
  | nil => simp [hsel] at h
  | cons r rest =>
    cases rest with
    | cons r2 rest2 => simp [hsel] at h
    | nil =>
      simp only [hsel, List.map_cons, List.map_nil, List.cons.injEq, and_true] at h
      simp only [incrementScrapeAttempts, hsel, attemptsOf]
      rw [selectEq_updateEq, hsel]
      · simp [h]
      · intro r; rfl

theorem noDataMessage_ne_allFailed (term : Option String) (n : Nat) :
    noDataMessage term ≠ allFailedMessage n := by
  intro h
  have h2 := congrArg (fun s => s.data.head?) h
  simp [noDataMessage, allFailedMessage] at h2

theorem scrapingFailed_ne_allFailed (m : String) (n : Nat) :
    scrapingFailedMessage m ≠ allFailedMessage n := by
  intro h
  have h2 := congrArg (fun s => s.data.head?) h
  simp [scrapingFailedMessage, allFailedMessage] at h2

theorem attemptCalls_no_allFailed (m : Nat) (a : AttemptEnv) (id : String) (term : Option String)
    (attempt : Nat) (c : Call) (hc : c ∈ attemptCalls m a id term attempt) (i : String) (n : Nat) :
    c ≠ .updateCoinError i (allFailedMessage n) := by
  intro hcn
  subst hcn
  unfold attemptCalls at hc
  have h1 := noDataMessage_ne_allFailed term n
  have h2 := fun s => scrapingFailed_ne_allFailed s n
  cases hs : a.scrape with
  | null => simp [hs, h1.symm] at hc
  | throws s =>
    by_cases hlt : attempt < m <;> simp [hs, hlt, (h2 s).symm] at hc
  | data d =>
    by_cases hk : 0 < d.securityScores.keys.length
    · cases hu : a.updateData <;> by_cases hlt : attempt < m <;>
        simp [hs, hk, hu, hlt, (h2 _).symm] at hc
    · simp [hs, hk, h1.symm] at hc

theorem planCalls_no_allFailed (m : Nat) (ce : CoinEnv) (id : String)
    (p : List (Option String × Nat)) (total : Nat) (c : Call)
    (hc : c ∈ planCalls m ce id p total) (i : String) (n : Nat) :
    c ≠ .updateCoinError i (allFailedMessage n) := by
  induction p generalizing total with
  | nil => simp [planCalls] at hc
  | cons x rest ih =>
    obtain ⟨term, a⟩ := x
    simp only [planCalls, List.mem_append] at hc
    rcases hc with hc | hc
    · exact attemptCalls_no_allFailed m _ id term a c hc i n
    · exact ih (total + 1) hc

theorem incrementCalls_append (l1 l2 : List Event) :
    incrementCalls (l1 ++ l2) = incrementCalls l1 + incrementCalls l2 := by
  simp [incrementCalls]

theorem incrementCalls_attemptCalls (coin : Coin) (m : Nat) (a : AttemptEnv) (id : String)
    (term : Option String) (attempt : Nat) :
    incrementCalls (tagged coin (attemptCalls m a id term attempt)) = 1 := by
  unfold attemptCalls
  cases hs : a.scrape with
  | null => simp [incrementCalls, tagged, List.filter_cons]
  | throws s => by_cases hlt : attempt < m <;> simp [incrementCalls, tagged, List.filter_cons, hlt]
  | data d =>
    by_cases hk : 0 < d.securityScores.keys.length
    · cases hu : a.updateData <;> by_cases hlt : attempt < m <;>
        simp [incrementCalls, tagged, List.filter_cons, hk, hlt]
    · simp [incrementCalls, tagged, List.filter_cons, hk]

theorem incrementCalls_planCalls (coin : Coin) (m : Nat) (ce : CoinEnv) (id : String)
    (p : List (Option String × Nat)) (total : Nat) :
    incrementCalls (tagged coin (planCalls m ce id p total)) = p.length := by
  induction p generalizing total with
  | nil => simp [planCalls, tagged, incrementCalls]
  | cons x rest ih =>
    obtain ⟨term, a⟩ := x
    simp only [planCalls, tagged_append, incrementCalls_append, incrementCalls_attemptCalls,
      ih, List.length_cons]
    omega

theorem scrapedTerms_append (l1 l2 : List Event) :
    scrapedTerms (l1 ++ l2) = scrapedTerms l1 ++ scrapedTerms l2 := by
  simp [scrapedTerms]

theorem scrapedTerms_attemptCalls (coin : Coin) (m : Nat) (a : AttemptEnv) (id : String)
    (term : Option String) (attempt : Nat) :
    scrapedTerms (tagged coin (attemptCalls m a id term attempt)) = [term] := by
  unfold attemptCalls
  cases hs : a.scrape with
  | null => simp [scrapedTerms, tagged, List.filterMap_cons]
  | throws s => by_cases hlt : attempt < m <;> simp [scrapedTerms, tagged, List.filterMap_cons, hlt]
  | data d =>
    by_cases hk : 0 < d.securityScores.keys.length
    · cases hu : a.updateData <;> by_cases hlt : attempt < m <;>
        simp [scrapedTerms, tagged, List.filterMap_cons, hk, hlt]
    · simp [scrapedTerms, tagged, List.filterMap_cons, hk]

theorem scrapedTerms_planCalls (coin : Coin) (m : Nat) (ce : CoinEnv) (id : String)
    (p : List (Option String × Nat)) (total : Nat) :
    scrapedTerms (tagged coin (planCalls m ce id p total)) = p.map Prod.fst := by
  induction p generalizing total with
  | nil => simp [planCalls, tagged, scrapedTerms]
  | cons x rest ih =>
    obtain ⟨term, a⟩ := x
    simp only [planCalls, tagged_append, scrapedTerms_append, scrapedTerms_attemptCalls, ih,
      List.map_cons, List.singleton_append]

theorem map_fst_attemptPlan (m : Nat) (terms : List (Option String)) :
    (attemptPlan m terms).map Prod.fst = (terms.map fun t => List.replicate m t).flatten := by
  induction terms with
  | nil => rfl
  | cons t rest ih =>
    simp only [attemptPlan, List.map_append, List.map_map, ih, List.map_cons, List.flatten_cons]
    congr 1
    rw [List.eq_replicate_iff]
    simp

theorem usable_of_noUsableResult (o : ScrapeOutcome) (h : NoUsableResult o) : usable o = false := by
  rcases h with h | ⟨d, h, hk⟩
  · simp [h, usable]
  · simp [h, usable, hk]

theorem succeeds_of_noUsableResult (a : AttemptEnv) (h : NoUsableResult a.scrape) :
    succeeds a = false := by
  simp [succeeds, usable_of_noUsableResult _ h]

theorem attemptBody_noData (env : Env) (coin : Coin) (id : String) (term : Option String)
    (attempt total : Nat) (w : World)
    (h : NoUsableResult ((env.coin coin).attempt total).scrape) :
    attemptBody env coin id term attempt total w =
      .next total
        { scraper := w.scraper
          rows := updateCoinError ((env.coin coin).attempt total).updateError
            ((env.coin coin).attempt total).errorClock
            (incrementScrapeAttempts ((env.coin coin).attempt total).selectAttempts
              ((env.coin coin).attempt total).updateAttempts w.rows id) id (noDataMessage term)
          log := w.log ++
            [⟨some coin, .incrementScrapeAttempts id⟩, ⟨some coin, .scrapeCertik term⟩,
              ⟨some coin, .updateCoinError id (noDataMessage term)⟩] } := by
  unfold attemptBody
  rcases h with h | ⟨d, h, hk⟩
  · simp [h, noDataBranch, callUpdateCoinError, emit]
  · simp [h, hk, noDataBranch, callUpdateCoinError, emit]

theorem runPlan_noData_attempts (env : Env) (coin : Coin) (id : String)
    (p : List (Option String × Nat)) (total : Nat) (w : World) (x : Option Nat)
    (hall : ∀ i, i < p.length →
      NoUsableResult ((env.coin coin).attempt (total + 1 + i)).scrape ∧
      ((env.coin coin).attempt (total + 1 + i)).selectAttempts = .ok ∧
      ((env.coin coin).attempt (total + 1 + i)).updateAttempts = .ok)
    (hx : attemptsOf w.rows id = [x]) (t1 : Nat) (w1 : World)
    (hr : runPlan env coin id p total w = .next t1 w1) :
    attemptsOf w1.rows id = [if p.length = 0 then x else some (orDefault x 0 + p.length)] := by
  induction p generalizing total w x with
  | nil =>
    simp only [runPlan] at hr
    cases hr
    simpa using hx
  | cons y rest ih =>
    obtain ⟨term, a⟩ := y
    obtain ⟨hnd, hsel, hupd⟩ := hall 0 (by simp)
    rw [Nat.add_zero] at hnd hsel hupd
    simp only [runPlan, attemptBody_noData env coin id term a (total + 1) w hnd] at hr
    have hx2 := attemptsOf_incrementScrapeAttempts w.rows id x hx
    have hrest : ∀ i, i < rest.length →
        NoUsableResult ((env.coin coin).attempt (total + 1 + 1 + i)).scrape ∧
        ((env.coin coin).attempt (total + 1 + 1 + i)).selectAttempts = .ok ∧
        ((env.coin coin).attempt (total + 1 + 1 + i)).updateAttempts = .ok := by
      intro i hi
      have := hall (i + 1) (by simpa using hi)
      rw [show total + 1 + (i + 1) = total + 1 + 1 + i by omega] at this
      exact this
    have := ih (total + 1) _ (some (orDefault x 0 + 1)) hrest
      (by rw [attemptsOf_updateCoinError, hsel, hupd]; exact hx2) hr
    rw [this]
    have h1 : orDefault (some (orDefault x 0 + 1)) 0 = orDefault x 0 + 1 := rfl
    by_cases hl : rest.length = 0
    · simp [hl]
    · simp [hl, h1]
      omega

theorem attemptCalls_of_succeeds (m : Nat) (a : AttemptEnv) (id : String) (term : Option String)
    (attempt : Nat) (d : CertikData) (hd : a.scrape = .data d)
    (hk : d.securityScores.keys ≠ []) (hw : a.updateData = .ok) :
    attemptCalls m a id term attempt =
      [.incrementScrapeAttempts id, .scrapeCertik term, .updateCoinCertikData id d] := by
  have hk1 : 0 < d.securityScores.keys.length := List.length_pos.mpr hk
  simp [attemptCalls, hd, hk1, hw]

theorem succeeds_of_data (a : AttemptEnv) (d : CertikData) (hd : a.scrape = .data d)
    (hk : d.securityScores.keys ≠ []) (hw : a.updateData = .ok) : succeeds a = true := by
  have hk1 : 0 < d.securityScores.keys.length := List.length_pos.mpr hk
  simp [succeeds, usable, hd, hk1, hw]

/-- A coin without symbol or id makes the workflow reject. -/
theorem processSingleCoin_error (env : Env) (coin : Coin) (w : World)
    (h : coin.symbol = none ∨ coin.coin_gecko_id = none) :
    ∃ message, processSingleCoin env coin w = .error message := by
  unfold processSingleCoin searchTerms
  cases hs : coin.symbol with
  | none => exact ⟨_, rfl⟩
  | some s =>
    cases hi : coin.coin_gecko_id with
    | none => exact ⟨_, rfl⟩
    | some i => simp [hs, hi] at h

/-- Among the first `n` attempts either none succeeds or there is a first one that does. -/
theorem first_success_or_none (ce : CoinEnv) (n : Nat) :
    (∀ i, i < n → succeeds (ce.attempt (i + 1)) = false) ∨
    ∃ j, j < n ∧ succeeds (ce.attempt (j + 1)) = true ∧
      ∀ i, i < j → succeeds (ce.attempt (i + 1)) = false := by
  induction n with
  | zero => exact Or.inl (fun i hi => absurd hi (Nat.not_lt_zero i))
  | succ n ih =>
    rcases ih with h | ⟨j, hj, hs, hmin⟩
    · cases hn : succeeds (ce.attempt (n + 1)) with
      | false =>
        refine Or.inl (fun i hi => ?_)
        rcases Nat.lt_succ_iff_lt_or_eq.mp hi with h1 | h1
        · exact h i h1
        · rw [h1]; exact hn
      | true => exact Or.inr ⟨n, Nat.lt_succ_self n, hn, h⟩
    · exact Or.inr ⟨j, Nat.lt_succ_of_lt hj, hs, hmin⟩

/-- The frame of `updateCoinError`, row by row. -/
theorem updateCoinError_frame (reply : StoreReply) (now : Int) (rows : List Coin)
    (id msg : String) :
    List.Forall₂
      (fun r r1 => SameButError r r1 ∧ (r.coin_gecko_id ≠ some id → r1 = r) ∧
        (r.coin_gecko_id = some id → reply = .ok →
          r1.certik_last_error = some msg ∧ r1.certik_last_updated = some now))
      rows (updateCoinError reply now rows id msg) := by
  induction rows with
  | nil => cases reply <;> exact List.Forall₂.nil
  | cons r rest ih =>
    cases reply with
    | ok =>
      simp only [updateCoinError, updateEq, List.map_cons] at ih ⊢
      refine List.Forall₂.cons ?_ ih
      by_cases hr : r.coin_gecko_id = some id
      · simp [hr, SameButError]
      · simp [hr, SameButError]
    | error m =>
      simp only [updateCoinError] at ih ⊢
      exact List.Forall₂.cons ⟨⟨rfl, rfl, rfl, rfl, rfl, rfl, rfl⟩, fun _ => rfl,
        fun _ h => by cases h⟩ ih
    | throws m =>
      simp only [updateCoinError] at ih ⊢
      exact List.Forall₂.cons ⟨⟨rfl, rfl, rfl, rfl, rfl, rfl, rfl⟩, fun _ => rfl,
        fun _ h => by cases h⟩ ih

theorem plannedTerms_eq (env : Env) (m : Nat) (coin : Coin) (sym id : String) :
    plannedTerms env m coin sym id = (coinPlan env m coin sym id).map Prod.fst := by
  simp [plannedTerms, coinPlan, map_fst_attemptPlan]

theorem backoffWaits_append (coin : Coin) (l1 l2 : List Event) :
    backoffWaits coin (l1 ++ l2) = backoffWaits coin l1 + backoffWaits coin l2 := by
  simp [backoffWaits]

theorem backoffWaits_attemptCalls (coin : Coin) (m : Nat) (a : AttemptEnv) (id : String)
    (term : Option String) (attempt : Nat) (hf : succeeds a = false) :
    backoffWaits coin (tagged coin (attemptCalls m a id term attempt)) =
      if endsInCatch a && decide (attempt < m) then 1 else 0 := by
  unfold attemptCalls endsInCatch
  unfold succeeds usable at hf
  cases hs : a.scrape with
  | null => simp [backoffWaits, tagged, List.filter_cons]
  | throws s => by_cases hlt : attempt < m <;> simp [backoffWaits, tagged, List.filter_cons, hlt]
  | data d =>
    by_cases hk : 0 < d.securityScores.keys.length
    · simp only [hs, hk, decide_True, Bool.true_and, decide_eq_false_iff_not] at hf
      cases hu : a.updateData with
      | ok => exact absurd hu hf
      | error e =>
        by_cases hlt : attempt < m <;> simp [backoffWaits, tagged, List.filter_cons, hk, hlt]
      | throws e =>
        by_cases hlt : attempt < m <;> simp [backoffWaits, tagged, List.filter_cons, hk, hlt]
    · simp [backoffWaits, tagged, List.filter_cons, hk]

theorem backoffWaits_planCalls (coin : Coin) (m : Nat) (ce : CoinEnv) (id : String)
    (p : List (Option String × Nat)) (total : Nat)
    (hall : ∀ i, i < p.length → succeeds (ce.attempt (total + 1 + i)) = false) :
    backoffWaits coin (tagged coin (planCalls m ce id p total)) =
      caughtBeforeLast m ce p total := by
  induction p generalizing total with
  | nil => simp [planCalls, tagged, backoffWaits, caughtBeforeLast]
  | cons x rest ih =>
    obtain ⟨term, a⟩ := x
    have h0 : succeeds (ce.attempt (total + 1)) = false := by
      have := hall 0 (by simp)
      simpa using this
    have hrest : ∀ i, i < rest.length → succeeds (ce.attempt (total + 1 + 1 + i)) = false := by
      intro i hi
      have := hall (i + 1) (by simpa using hi)
      rw [show total + 1 + (i + 1) = total + 1 + 1 + i by omega] at this
      exact this
    simp only [planCalls, tagged_append, backoffWaits_append, caughtBeforeLast,
      backoffWaits_attemptCalls coin m _ id term a h0, ih (total + 1) hrest]

theorem caughtBeforeLast_append (m : Nat) (ce : CoinEnv) (p q : List (Option String × Nat))
    (total : Nat) :
    caughtBeforeLast m ce (p ++ q) total =
      caughtBeforeLast m ce p total + caughtBeforeLast m ce q (total + p.length) := by
  induction p generalizing total with
  | nil => simp [caughtBeforeLast]
  | cons x rest ih =>
    obtain ⟨term, a⟩ := x
    rw [List.cons_append]
    simp only [caughtBeforeLast, List.length_cons]
    rw [ih, show total + 1 + rest.length = total + (rest.length + 1) by omega]
    omega

theorem caughtBeforeLast_range (m : Nat) (ce : CoinEnv) (term : Option String) (s n total : Nat)
    (hs : 1 ≤ s) (hsn : s + n = m + 1)
    (h : ∀ i, i < n → endsInCatch (ce.attempt (total + 1 + i)) = true) :
    caughtBeforeLast m ce ((List.range' s n).map fun attempt => (term, attempt)) total = n - 1 := by
  induction n generalizing s total with
  | zero => rfl
  | succ n ih =>
    have h0 : endsInCatch (ce.attempt (total + 1)) = true := by
      have := h 0 (by omega)
      simpa using this
    have hrest : ∀ i, i < n → endsInCatch (ce.attempt (total + 1 + 1 + i)) = true := by
      intro i hi
      have := h (i + 1) (by omega)
      rw [show total + 1 + (i + 1) = total + 1 + 1 + i by omega] at this
      exact this
    simp only [List.range'_succ, List.map_cons, caughtBeforeLast, h0, Bool.true_and]
    rw [ih (s + 1) (total + 1) (by omega) (by omega) hrest]
    by_cases hlt : s < m
    · simp only [hlt, decide_True, if_true]
      omega
    · simp only [hlt, decide_False]
      have : n = 0 := by omega
      subst this
      rfl

theorem succeeds_of_endsInCatch (a : AttemptEnv) (h : endsInCatch a = true) :
    succeeds a = false := by
  unfold endsInCatch at h
  unfold succeeds usable
  cases hs : a.scrape with
  | null => simp [hs] at h
  | throws s => simp
  | data d =>
    simp only [hs, Bool.and_eq_true, decide_eq_true_eq] at h
    simp [h.2]

theorem caughtBeforeLast_coinPlan_all (env : Env) (m : Nat) (ce : CoinEnv) (coin : Coin)
    (sym id : String)
    (h : ∀ i, i < 3 * m → endsInCatch (ce.attempt (i + 1)) = true) :
    caughtBeforeLast m ce (coinPlan env m coin sym id) 0 = 3 * (m - 1) := by
  simp only [coinPlan, attemptPlan, List.append_nil]
  rw [caughtBeforeLast_append, caughtBeforeLast_append]
  simp only [List.length_map, List.length_range', Nat.zero_add]
  rw [caughtBeforeLast_range m ce _ 1 m 0 (by omega) (by omega)
      (fun i hi => by rw [show 0 + 1 + i = i + 1 by omega]; exact h i (by omega)),
    caughtBeforeLast_range m ce _ 1 m m (by omega) (by omega)
      (fun i hi => by rw [show m + 1 + i = m + i + 1 by omega]; exact h _ (by omega)),
    caughtBeforeLast_range m ce _ 1 m (m + m) (by omega) (by omega)
      (fun i hi => by rw [show m + m + 1 + i = m + m + i + 1 by omega]; exact h _ (by omega))]
  omega

/-- The success write in general: the row of the coin gets the new result, no error, the second
clock reading as `certik_last_updated` and the date two local days after the first reading as
`certik_next_update`; this is 48 hours after the first reading when the local offset is the
same at both ends; a store error is thrown as "Database update failed: ...". -/
theorem updateCoinCertikData_spec (localTZA : Int → Bool → Int) (t1 t2 : Int)
    (rows : List Coin) (coinGeckoId : String) (certikData : CertikData) :
    (∃ rows1, updateCoinCertikData localTZA .ok t1 t2 rows coinGeckoId certikData = .ok rows1 ∧
      List.Forall₂
        (fun r r1 =>
          (r.coin_gecko_id ≠ some coinGeckoId → r1 = r) ∧
          (r.coin_gecko_id = some coinGeckoId →
            r1 = { r with
                    certik_data := some certikData
                    certik_last_updated := some t2
                    certik_next_update := some (setDatePlus2 localTZA t1)
                    certik_last_error := none }))
        rows rows1) ∧
    (localTZA (t1 + localTZA t1 true + 2 * msPerDay) false = localTZA t1 true →
      setDatePlus2 localTZA t1 = t1 + 172800 * 1000) ∧
    (∀ message, updateCoinCertikData localTZA (.error message) t1 t2 rows coinGeckoId certikData =
      .error ("Database update failed: " ++ message)) := by
  refine ⟨⟨_, rfl, ?_⟩, ?_, fun _ => rfl⟩
  · induction rows with
    | nil => exact List.Forall₂.nil
    | cons r rest ih =>
      simp only [updateEq, List.map_cons] at ih ⊢
      refine List.Forall₂.cons ?_ ih
      by_cases hr : r.coin_gecko_id = some coinGeckoId <;> simp [hr]
  · intro h
    simp only [setDatePlus2]
    rw [h]
    simp only [msPerDay]
    omega

/-! ## Lemmas on the batch loop -/

theorem settle_faulty (env : Env) (w : World) (coin : Coin) (h : healthy coin = false) :
    settle env w coin = w := by
  have h1 : coin.symbol = none ∨ coin.coin_gecko_id = none := by
    unfold healthy at h
    cases hs : coin.symbol <;> cases hi : coin.coin_gecko_id <;> simp [hs, hi] at h ⊢
  obtain ⟨m, hm⟩ := processSingleCoin_error env coin w h1
  simp [settle, hm]

theorem settle_healthy (env : Env) (w : World) (coin : Coin) (h : healthy coin = true) :
    ∃ calls, (settle env w coin).log = w.log ++ tagged coin calls ∧
      ((settle env w coin).scraper =
          { w.scraper with successCount := w.scraper.successCount + 1 } ∨
        (settle env w coin).scraper = { w.scraper with failCount := w.scraper.failCount + 1 }) := by
  unfold healthy at h
  cases hs : coin.symbol with
  | none => simp [hs] at h
  | some sym =>
    cases hi : coin.coin_gecko_id with
    | none => simp [hi] at h
    | some id =>
      rcases first_success_or_none (env.coin coin) (3 * w.scraper.maxRetries) with
        hall | ⟨j, hj, hsj, hmin⟩
      · obtain ⟨w2, hp2, hsc, _, hlog⟩ := processSingleCoin_fails env coin sym id w hs hi hall
        exact ⟨_, by simp only [settle, hp2]; exact hlog, Or.inr (by simp only [settle, hp2]; exact hsc)⟩
      · obtain ⟨w2, hp2, hsc, hlog⟩ :=
          processSingleCoin_succeeds env coin sym id w hs hi j hj hmin hsj
        exact ⟨_, by simp only [settle, hp2]; exact hlog, Or.inl (by simp only [settle, hp2]; exact hsc)⟩

theorem settle_log (env : Env) (w : World) (coin : Coin) :
    ∃ calls, (settle env w coin).log = w.log ++ tagged coin calls ∧
      (settle env w coin).scraper.batchSize = w.scraper.batchSize ∧
      (settle env w coin).scraper.maxRetries = w.scraper.maxRetries := by
  cases h : healthy coin with
  | false =>
    rw [settle_faulty env w coin h]
    exact ⟨[], by simp [tagged], rfl, rfl⟩
  | true =>
    obtain ⟨calls, hlog, hsc⟩ := settle_healthy env w coin h
    refine ⟨calls, hlog, ?_, ?_⟩ <;> rcases hsc with hsc | hsc <;> rw [hsc]

theorem foldl_settle_log (env : Env) (batch : List Coin) (w : World) :
    ∃ seg, (batch.foldl (settle env) w).log = w.log ++ seg ∧
      (∀ e ∈ seg, ∃ c ∈ batch, e.task = some c) ∧
      (batch.foldl (settle env) w).scraper.batchSize = w.scraper.batchSize ∧
      (batch.foldl (settle env) w).scraper.maxRetries = w.scraper.maxRetries := by
  induction batch generalizing w with
  | nil => exact ⟨[], by simp, by simp, rfl, rfl⟩
  | cons c rest ih =>
    obtain ⟨calls, hlog, hb, hm⟩ := settle_log env w c
    obtain ⟨seg, hlog1, htask, hb1, hm1⟩ := ih (settle env w c)
    refine ⟨tagged c calls ++ seg, ?_, ?_, ?_, ?_⟩
    · simp only [List.foldl_cons, hlog1, hlog, List.append_assoc]
    · intro e he
      rcases List.mem_append.mp he with he | he
      · simp only [tagged, List.mem_map] at he
        obtain ⟨call, _, rfl⟩ := he
        exact ⟨c, by simp, rfl⟩
      · obtain ⟨c1, hc1, ht⟩ := htask e he
        exact ⟨c1, List.mem_cons_of_mem _ hc1, ht⟩
    · simp only [List.foldl_cons, hb1, hb]
    · simp only [List.foldl_cons, hm1, hm]

theorem firstSuccess_none (ce : CoinEnv) (n : Nat) (h : firstSuccess ce n = none) :
    ∀ i, i < n → succeeds (ce.attempt (i + 1)) = false := by
  induction n with
  | zero => intro i hi; exact absurd hi (Nat.not_lt_zero i)
  | succ n ih =>
    simp only [firstSuccess] at h
    cases hf : firstSuccess ce n with
    | some j => simp [hf] at h
    | none =>
      simp only [hf] at h
      cases hs : succeeds (ce.attempt (n + 1)) with
      | true => simp [hs] at h
      | false =>
        intro i hi
        rcases Nat.lt_succ_iff_lt_or_eq.mp hi with h1 | h1
        · exact ih hf i h1
        · rw [h1]; exact hs

theorem firstSuccess_some (ce : CoinEnv) (n j : Nat) (h : firstSuccess ce n = some j) :
    j < n ∧ succeeds (ce.attempt (j + 1)) = true ∧
      ∀ i, i < j → succeeds (ce.attempt (i + 1)) = false := by
  induction n with
  | zero => simp [firstSuccess] at h
  | succ n ih =>
    simp only [firstSuccess] at h
    cases hf : firstSuccess ce n with
    | some j1 =>
      simp only [hf, Option.some.injEq] at h
      subst h
      obtain ⟨h1, h2, h3⟩ := ih hf
      exact ⟨Nat.lt_succ_of_lt h1, h2, h3⟩
    | none =>
      simp only [hf] at h
      cases hs : succeeds (ce.attempt (n + 1)) with
      | false => simp [hs] at h
      | true =>
        simp only [hs, if_true, Option.some.injEq] at h
        subst h
        exact ⟨Nat.lt_succ_self _, hs, firstSuccess_none ce _ hf⟩

/-- The calls a workflow adds to the log are those of `workflowCalls`, whatever the table
holds. -/
theorem processSingleCoin_log (env : Env) (coin : Coin) (w w1 : World)
    (h : processSingleCoin env coin w = .ok w1) :
    w1.log = w.log ++ workflowOf env w.scraper.maxRetries coin := by
  unfold workflowOf workflowCalls
  cases hs : coin.symbol with
  | none =>
    obtain ⟨m, hm⟩ := processSingleCoin_error env coin w (Or.inl hs)
    rw [hm] at h
    cases h
  | some sym =>
    cases hi : coin.coin_gecko_id with
    | none =>
      obtain ⟨m, hm⟩ := processSingleCoin_error env coin w (Or.inr hi)
      rw [hm] at h
      cases h
    | some id =>
      cases hf : firstSuccess (env.coin coin) (3 * w.scraper.maxRetries) with
      | none =>
        obtain ⟨w2, hp2, _, _, hlog⟩ := processSingleCoin_fails env coin sym id w hs hi
          (firstSuccess_none _ _ hf)
        rw [hp2] at h
        cases h
        exact hlog
      | some j =>
        obtain ⟨hj, hsj, hmin⟩ := firstSuccess_some _ _ _ hf
        obtain ⟨w2, hp2, _, hlog⟩ :=
          processSingleCoin_succeeds env coin sym id w hs hi j hj hmin hsj
        rw [hp2] at h
        cases h
        exact hlog

theorem workflowOf_faulty (env : Env) (m : Nat) (coin : Coin) (h : healthy coin = false) :
    workflowOf env m coin = [] := by
  unfold healthy at h
  unfold workflowOf workflowCalls
  cases hs : coin.symbol <;> cases hi : coin.coin_gecko_id <;> simp [hs, hi, tagged] at h ⊢

theorem settle_log_exact (env : Env) (w : World) (coin : Coin) :
    (settle env w coin).log = w.log ++ workflowOf env w.scraper.maxRetries coin := by
  cases hp : processSingleCoin env coin w with
  | ok w1 =>
    simp only [settle, hp]
    exact processSingleCoin_log env coin w w1 hp
  | error m =>
    have hh : healthy coin = false := by
      cases hc : healthy coin with
      | false => rfl
      | true =>
        obtain ⟨calls, hlog, hsc⟩ := settle_healthy env w coin hc
        unfold healthy at hc
        cases hs : coin.symbol with
        | none => simp [hs] at hc
        | some sym =>
          cases hi : coin.coin_gecko_id with
          | none => simp [hi] at hc
          | some id =>
            rcases first_success_or_none (env.coin coin) (3 * w.scraper.maxRetries) with
              hall | ⟨j, hj, hsj, hmin⟩
            · obtain ⟨w2, hp2, _⟩ := processSingleCoin_fails env coin sym id w hs hi hall
              rw [hp2] at hp
              cases hp
            · obtain ⟨w2, hp2, _⟩ :=
                processSingleCoin_succeeds env coin sym id w hs hi j hj hmin hsj
              rw [hp2] at hp
              cases hp
    simp [settle, hp, workflowOf_faulty env _ coin hh]

theorem foldl_settle_log_exact (env : Env) (batch : List Coin) (w : World) :
    (batch.foldl (settle env) w).log =
      w.log ++ (batch.map (workflowOf env w.scraper.maxRetries)).flatten := by
  induction batch generalizing w with
  | nil => simp
  | cons c rest ih =>
    obtain ⟨_, _, _, hm⟩ := settle_log env w c
    rw [List.foldl_cons, ih, settle_log_exact, hm]
    simp [List.append_assoc]

theorem eventsOf_append (coin : Coin) (l1 l2 : List Event) :
    eventsOf coin (l1 ++ l2) = eventsOf coin l1 ++ eventsOf coin l2 := by
  simp [eventsOf]

theorem eventsOf_workflowOf (env : Env) (m : Nat) (coin c : Coin) :
    eventsOf coin (workflowOf env m c) = if c = coin then workflowOf env m c else [] := by
  unfold eventsOf workflowOf tagged
  by_cases h : c = coin
  · subst h
    simp [List.filter_eq_self]
  · simp [h, List.filter_eq_nil_iff]

theorem eventsOf_workflows (env : Env) (m : Nat) (coin : Coin) (coins : List Coin) :
    eventsOf coin ((coins.map (workflowOf env m)).flatten) = workflowsOf env m coin coins := by
  induction coins with
  | nil => rfl
  | cons c rest ih =>
    simp only [List.map_cons, List.flatten_cons, eventsOf_append, eventsOf_workflowOf, ih,
      workflowsOf, List.filter_cons]
    by_cases h : c = coin
    · simp [h]
    · simp [h]

theorem workflowsOf_append (env : Env) (m : Nat) (coin : Coin) (l1 l2 : List Coin) :
    workflowsOf env m coin (l1 ++ l2) = workflowsOf env m coin l1 ++ workflowsOf env m coin l2 := by
  simp [workflowsOf]

theorem eventsOf_eq_of_workflowEvents (coin : Coin) (l1 l2 : List Event)
    (h : workflowEvents l1 = workflowEvents l2) : eventsOf coin l1 = eventsOf coin l2 := by
  have e : ∀ l : List Event, eventsOf coin l = eventsOf coin (workflowEvents l) := by
    intro l
    simp only [eventsOf, workflowEvents, List.filter_filter]
    congr 1
    funext e
    by_cases he : e.task = some coin <;> simp [he]
  rw [e l1, e l2, h]

theorem lt_numBatches (n b k : Nat) (hb : 1 ≤ b) : k < numBatches n b ↔ k * b < n := by
  unfold numBatches
  rw [Nat.lt_iff_add_one_le, Nat.le_div_iff_mul_le (by omega), Nat.add_mul]
  omega

theorem length_batchAt (coins : List Coin) (b k : Nat) :
    (batchAt coins b k).length = min (k * b + b) coins.length - k * b := by
  simp [batchAt, slice]

theorem batchAt_eq_nil (coins : List Coin) (b k : Nat) (h : coins.length ≤ k * b) :
    batchAt coins b k = [] := by
  apply List.eq_nil_of_length_eq_zero
  rw [length_batchAt]
  omega

theorem batchAt_append_drop (coins : List Coin) (b k : Nat) :
    batchAt coins b k ++ coins.drop ((k + 1) * b) = coins.drop (k * b) := by
  unfold batchAt slice
  rw [List.drop_take, Nat.add_sub_cancel_left, Nat.add_mul, Nat.one_mul,
    ← List.drop_drop, List.take_append_drop]

theorem flatten_batches_from (coins : List Coin) (b : Nat) (hb : 1 ≤ b) (d k : Nat)
    (hk : k + d = numBatches coins.length b) :
    ((List.range' k d).map (batchAt coins b)).flatten = coins.drop (k * b) := by
  induction d generalizing k with
  | zero =>
    have : ¬ k < numBatches coins.length b := by omega
    rw [lt_numBatches _ _ _ hb] at this
    simp only [List.range'_zero, List.map_nil, List.flatten_nil]
    rw [List.drop_eq_nil_of_le (by omega)]
  | succ d ih =>
    simp only [List.range'_succ, List.map_cons, List.flatten_cons]
    rw [ih (k + 1) (by omega), batchAt_append_drop]

theorem interBatchWaits_append (l1 l2 : List Event) :
    interBatchWaits (l1 ++ l2) = interBatchWaits l1 + interBatchWaits l2 := by
  simp [interBatchWaits]

theorem interBatchWaits_of_tasks (seg : List Event) (h : ∀ e ∈ seg, e.task ≠ none) :
    interBatchWaits seg = 0 := by
  simp only [interBatchWaits, List.length_eq_zero, List.filter_eq_nil_iff]
  intro e he
  simp [h e he]

/-- The log of the batch loop from iteration `k` on, given enough iterations. -/
theorem batchLoop_log (env : Env) (coins : List Coin) (b m : Nat) (hb : 1 ≤ b) (fuel : Nat) :
    ∀ (k : Nat) (w : World), w.scraper.batchSize = b → w.scraper.maxRetries = m →
      numBatches coins.length b - k ≤ fuel →
      ∃ w1 segment, batchLoop env coins fuel (k * b) w = some w1 ∧
        w1.scraper.batchSize = b ∧
        w1.log = w.log ++
          ((List.range' k (numBatches coins.length b - k)).map
            (batchLog coins b segment)).flatten ∧
        (∀ j e, e ∈ segment j → ∃ c ∈ batchAt coins b j, e.task = some c) ∧
        (∀ j c, k ≤ j → eventsOf c (segment j) = workflowsOf env m c (batchAt coins b j)) ∧
        interBatchWaits w1.log = interBatchWaits w.log + (numBatches coins.length b - k - 1) := by
  induction fuel with
  | zero =>
    intro k w hwb hwm hfuel
    have hk : ¬ k < numBatches coins.length b := by omega
    have hk1 := hk
    rw [lt_numBatches _ _ _ hb] at hk1
    refine ⟨w, fun _ => [], ?_, hwb, ?_, ?_, ?_, ?_⟩
    · rw [batchLoop, if_neg hk1]
    · rw [show numBatches coins.length b - k = 0 by omega]
      simp
    · intro j e he
      cases he
    · intro j c hj
      rw [batchAt_eq_nil coins b j (Nat.le_trans (Nat.le_of_not_lt hk1)
        (Nat.mul_le_mul_right b hj))]
      rfl
    · omega
  | succ fuel ih =>
    intro k w hwb hwm hfuel
    by_cases hk : k < numBatches coins.length b
    · have hk1 := hk
      rw [lt_numBatches _ _ _ hb] at hk1
      obtain ⟨seg0, hlog0, htask0, hb0, hm0⟩ := foldl_settle_log env (batchAt coins b k) w
      rw [hwb] at hb0
      rw [hwm] at hm0
      have hseg0 : seg0 = ((batchAt coins b k).map (workflowOf env m)).flatten := by
        have hexact := foldl_settle_log_exact env (batchAt coins b k) w
        rw [hlog0, hwm] at hexact
        exact List.append_cancel_left hexact
      have hnext : (k + 1 < numBatches coins.length b) ↔ k * b + b < coins.length := by
        rw [lt_numBatches _ _ _ hb, Nat.add_mul, Nat.one_mul]
      -- the world after the batch settled and the wait was made
      obtain ⟨wc, hwc, hwcb, hwcm, hwclog⟩ : ∃ wc : World,
          (if k * b + b < coins.length then
              emit (emit ((batchAt coins b k).foldl (settle env) w) none
                (.allSettled (batchAt coins b k))) none (.waitSeconds 5)
            else emit ((batchAt coins b k).foldl (settle env) w) none
                (.allSettled (batchAt coins b k))) = wc ∧
          wc.scraper.batchSize = b ∧ wc.scraper.maxRetries = m ∧
          wc.log = w.log ++ (seg0 ++ [⟨none, .allSettled (batchAt coins b k)⟩] ++
            if k + 1 < numBatches coins.length b then [⟨none, .waitSeconds 5⟩] else []) := by
        refine ⟨_, rfl, ?_, ?_, ?_⟩
        · split <;> simp [emit, hb0]
        · split <;> simp [emit, hm0]
        · by_cases hlt : k * b + b < coins.length
          · simp [hlt, hnext.mpr hlt, emit, hlog0]
          · simp [hlt, mt hnext.mp hlt, emit, hlog0]
      obtain ⟨w1, segment1, hloop, hb1, hlog1, htask1, hown1, hwaits1⟩ :=
        ih (k + 1) wc hwcb hwcm (by omega)
      refine ⟨w1, fun j => if j = k then seg0 else segment1 j, ?_, hb1, ?_, ?_, ?_, ?_⟩
      · rw [batchLoop, if_pos hk1]
        have hb0s := hb0
        unfold batchAt at hb0s hwc
        have hidx : (k + 1) * b = k * b + b := by rw [Nat.add_mul, Nat.one_mul]
        rw [hidx] at hloop
        by_cases hlt : k * b + b < coins.length
        · simp only [hlt, if_true] at hwc
          simp only [hwb, emit, hb0s, hlt, if_true]
          simp only [emit] at hwc
          rw [hwc]
          exact hloop
        · simp only [hlt, if_false] at hwc
          simp only [hwb, emit, hb0s, hlt, if_false]
          simp only [emit] at hwc
          rw [hwc]
          exact hloop
      · rw [hlog1, hwclog,
          show numBatches coins.length b - k = (numBatches coins.length b - (k + 1)) + 1 by omega,
          List.range'_succ, List.map_cons, List.flatten_cons, List.append_assoc]
        congr 1
        congr 1
        · simp [batchLog]
        · congr 1
          apply List.map_congr_left
          intro j hj
          have hj1 : k + 1 ≤ j := (List.mem_range'_1.mp hj).1
          have hjk : j ≠ k := by omega
          simp [batchLog, hjk]
      · intro j e he
        by_cases hjk : j = k
        · subst hjk
          simp only [if_true] at he
          exact htask0 e he
        · simp only [hjk, if_false] at he
          exact htask1 j e he
      · intro j c hj
        by_cases hjk : j = k
        · subst hjk
          simp only [if_true]
          rw [hseg0]
          exact eventsOf_workflows env m c _
        · simp only [hjk, if_false]
          exact hown1 j c (by omega)
      · rw [hwaits1, hwclog, interBatchWaits_append, interBatchWaits_append,
          interBatchWaits_append,
          interBatchWaits_of_tasks seg0 (fun e he => by
            obtain ⟨c, _, hc⟩ := htask0 e he
            simp [hc])]
        by_cases hlt : k + 1 < numBatches coins.length b
        · simp only [hlt, if_true]
          have h1 : interBatchWaits [⟨none, .allSettled (batchAt coins b k)⟩] = 0 := by
            simp [interBatchWaits]
          have h2 : interBatchWaits [⟨none, .waitSeconds 5⟩] = 1 := by
            simp [interBatchWaits]
          rw [h1, h2]
          omega
        · simp only [hlt, if_false]
          have h1 : interBatchWaits [⟨none, .allSettled (batchAt coins b k)⟩] = 0 := by
            simp [interBatchWaits]
          have h2 : interBatchWaits [] = 0 := rfl
          rw [h1, h2]
          omega
    · have hk1 := hk
      rw [lt_numBatches _ _ _ hb] at hk1
      refine ⟨w, fun _ => [], ?_, hwb, ?_, ?_, ?_, ?_⟩
      · rw [batchLoop, if_neg hk1]
      · rw [show numBatches coins.length b - k = 0 by omega]
        simp
      · intro j e he
        cases he
      · intro j c hj
        rw [batchAt_eq_nil coins b j (Nat.le_trans (Nat.le_of_not_lt hk1)
          (Nat.mul_le_mul_right b hj))]
        rfl
      · omega

theorem attemptBody_prepend (env : Env) (coin : Coin) (id : String) (term : Option String)
    (attempt total : Nat) (w : World) (l : List Event) :
    attemptBody env coin id term attempt total (w.prepend l) =
      (attemptBody env coin id term attempt total w).prepend l := by
  unfold attemptBody
  cases hs : ((env.coin coin).attempt total).scrape with
  | null => simp [hs, noDataBranch, callUpdateCoinError, emit, Step.prepend, World.prepend]
  | throws m =>
    by_cases hlt : attempt < w.scraper.maxRetries <;>
      simp [hs, catchBlock, callUpdateCoinError, emit, Step.prepend, World.prepend, hlt]
  | data d =>
    by_cases hk : 0 < d.securityScores.keys.length
    · cases hu : ((env.coin coin).attempt total).updateData <;>
        by_cases hlt : attempt < w.scraper.maxRetries <;>
        simp [hs, catchBlock, callUpdateCoinError, emit, Step.prepend, World.prepend, hlt, hk, hu,
          updateCoinCertikData]
    · simp [hs, noDataBranch, callUpdateCoinError, emit, Step.prepend, World.prepend, hk]

theorem forAttempts_prepend (env : Env) (coin : Coin) (id : String) (term : Option String)
    (attempts : List Nat) (total : Nat) (w : World) (l : List Event) :
    forAttempts env coin id term attempts total (w.prepend l) =
      (forAttempts env coin id term attempts total w).prepend l := by
  induction attempts generalizing total w with
  | nil => rfl
  | cons a rest ih =>
    simp only [forAttempts, attemptBody_prepend]
    cases attemptBody env coin id term a (total + 1) w with
    | returned w1 => rfl
    | next t1 w1 => exact ih t1 w1

theorem forSearchTerms_prepend (env : Env) (coin : Coin) (id : String)
    (terms : List (Option String)) (total : Nat) (w : World) (l : List Event) :
    forSearchTerms env coin id terms total (w.prepend l) =
      (forSearchTerms env coin id terms total w).prepend l := by
  induction terms generalizing total w with
  | nil => rfl
  | cons t rest ih =>
    simp only [forSearchTerms, forAttempts_prepend]
    have hm : (w.prepend l).scraper.maxRetries = w.scraper.maxRetries := rfl
    rw [hm]
    cases forAttempts env coin id t (List.range' 1 w.scraper.maxRetries) total w with
    | returned w1 => rfl
    | next t1 w1 => exact ih t1 w1

/-- What a workflow does to the table and the scraper object does not depend on the log it
starts from. -/
theorem settle_prepend (env : Env) (coin : Coin) (w : World) (l : List Event) :
    settle env (w.prepend l) coin = (settle env w coin).prepend l := by
  unfold settle processSingleCoin
  cases hs : searchTerms env coin with
  | error m => rfl
  | ok terms =>
    cases hi : coin.coin_gecko_id with
    | none => rfl
    | some id =>
      simp only [forSearchTerms_prepend]
      cases forSearchTerms env coin id terms 0 w with
      | returned w1 => rfl
      | next t1 w1 =>
        simp [Step.prepend, World.prepend, callUpdateCoinError, emit]

theorem workflowEvents_append (l1 l2 : List Event) :
    workflowEvents (l1 ++ l2) = workflowEvents l1 ++ workflowEvents l2 := by
  simp [workflowEvents]

theorem sameCore_settle (env : Env) (coin : Coin) (w w1 : World) (h : SameCore w w1) :
    SameCore (settle env w coin) (settle env w1 coin) := by
  obtain ⟨hsc, hrows, hlog⟩ := h
  have e : w = World.prepend w.log ⟨w.scraper, w.rows, []⟩ := by
    simp [World.prepend]
  have e1 : w1 = World.prepend w1.log ⟨w.scraper, w.rows, []⟩ := by
    simp [World.prepend, hsc, hrows]
  rw [e, e1, settle_prepend, settle_prepend]
  refine ⟨rfl, rfl, ?_⟩
  simp only [World.prepend, workflowEvents_append, hlog]

theorem sameCore_foldl (env : Env) (coins : List Coin) (w w1 : World) (h : SameCore w w1) :
    SameCore (coins.foldl (settle env) w) (coins.foldl (settle env) w1) := by
  induction coins generalizing w w1 with
  | nil => exact h
  | cons c rest ih => exact ih _ _ (sameCore_settle env c w w1 h)

theorem sameCore_emit (w : World) (call : Call) : SameCore (emit w none call) w :=
  ⟨rfl, rfl, by simp [emit, workflowEvents]⟩

theorem sameCore_trans (a b c : World) (h1 : SameCore a b) (h2 : SameCore b c) : SameCore a c :=
  ⟨h1.1.trans h2.1, h1.2.1.trans h2.2.1, h1.2.2.trans h2.2.2⟩

theorem foldl_settle_filter (env : Env) (coins : List Coin) (w : World) :
    (coins.filter healthy).foldl (settle env) w = coins.foldl (settle env) w := by
  induction coins generalizing w with
  | nil => rfl
  | cons c rest ih =>
    cases hc : healthy c with
    | true => simp only [List.filter_cons, hc, if_true, List.foldl_cons, ih]
    | false =>
      simp only [List.filter_cons, hc, List.foldl_cons, settle_faulty env w c hc]
      exact ih w

/-- Up to the calls of the orchestrator itself, the batch loop is the fold of the workflows
over the remaining candidates in list order. -/
theorem batchLoop_core (env : Env) (coins : List Coin) (b : Nat) (hb : 1 ≤ b) (fuel : Nat) :
    ∀ (k : Nat) (w : World), w.scraper.batchSize = b →
      numBatches coins.length b - k ≤ fuel →
      ∃ w1, batchLoop env coins fuel (k * b) w = some w1 ∧
        SameCore w1 ((coins.drop (k * b)).foldl (settle env) w) := by
  induction fuel with
  | zero =>
    intro k w hwb hfuel
    have hk : ¬ k < numBatches coins.length b := by omega
    rw [lt_numBatches _ _ _ hb] at hk
    refine ⟨w, by rw [batchLoop, if_neg hk], ?_⟩
    rw [List.drop_eq_nil_of_le (by omega)]
    exact ⟨rfl, rfl, rfl⟩
  | succ fuel ih =>
    intro k w hwb hfuel
    by_cases hk : k < numBatches coins.length b
    · have hk1 := hk
      rw [lt_numBatches _ _ _ hb] at hk1
      obtain ⟨_, _, _, hb0, _⟩ := foldl_settle_log env (batchAt coins b k) w
      rw [hwb] at hb0
      obtain ⟨wc, hwc, hwcb, hcore⟩ : ∃ wc : World,
          (if k * b + b < coins.length then
              emit (emit ((batchAt coins b k).foldl (settle env) w) none
                (.allSettled (batchAt coins b k))) none (.waitSeconds 5)
            else emit ((batchAt coins b k).foldl (settle env) w) none
                (.allSettled (batchAt coins b k))) = wc ∧
          wc.scraper.batchSize = b ∧
          SameCore wc ((batchAt coins b k).foldl (settle env) w) := by
        refine ⟨_, rfl, ?_, ?_⟩
        · split <;> simp [emit, hb0]
        · split
          · exact sameCore_trans _ _ _ (sameCore_emit _ _) (sameCore_emit _ _)
          · exact sameCore_emit _ _
      obtain ⟨w1, hloop, hcore1⟩ := ih (k + 1) wc hwcb (by omega)
      refine ⟨w1, ?_, ?_⟩
      · rw [batchLoop, if_pos hk1]
        have hb0s := hb0
        unfold batchAt at hb0s hwc
        have hidx : (k + 1) * b = k * b + b := by rw [Nat.add_mul, Nat.one_mul]
        rw [hidx] at hloop
        by_cases hlt : k * b + b < coins.length
        · simp only [hlt, if_true] at hwc
          simp only [hwb, emit, hb0s, hlt, if_true]
          simp only [emit] at hwc
          rw [hwc]
          exact hloop
        · simp only [hlt, if_false] at hwc
          simp only [hwb, emit, hb0s, hlt, if_false]
          simp only [emit] at hwc
          rw [hwc]
          exact hloop
      · refine sameCore_trans _ _ _ hcore1 ?_
        rw [← batchAt_append_drop coins b k, List.foldl_append]
        exact sameCore_foldl env _ _ _ hcore
    · have hk1 := hk
      rw [lt_numBatches _ _ _ hb] at hk1
      refine ⟨w, by rw [batchLoop, if_neg hk1], ?_⟩
      rw [List.drop_eq_nil_of_le (by omega)]
      exact ⟨rfl, rfl, rfl⟩

theorem numBatches_le (n b : Nat) (hb : 1 ≤ b) : numBatches n b ≤ n := by
  by_cases h0 : numBatches n b = 0
  · omega
  · have h : numBatches n b - 1 < numBatches n b := by omega
    rw [lt_numBatches _ _ _ hb] at h
    have : numBatches n b - 1 ≤ (numBatches n b - 1) * b := Nat.le_mul_of_pos_right _ (by omega)
    omega

theorem sameCore_symm (a b : World) (h : SameCore a b) : SameCore b a :=
  ⟨h.1.symm, h.2.1.symm, h.2.2.symm⟩

/-! ## Lemmas on the page extractor, the candidate query and the counters -/

theorem scrapeCertik_detailPage (averageScore : Except String String)
    (additionalMetrics allData dailyInflows : Except String (List LabelValue))
    (searchTerm : Option String) :
    scrapeCertik (detailPage averageScore additionalMetrics allData dailyInflows) searchTerm =
      match extractDetail (detailPage averageScore additionalMetrics allData dailyInflows)
          searchTerm with
      | .ok result => .data result
      | .error _ => .null := by
  simp [scrapeCertik, scrapeTry, detailPage]

theorem hasLabel_iff (labels : List String) (d : LabelValue) :
    hasLabel labels d = true ↔ ∃ l ∈ labels, d.label = some l := by
  unfold hasLabel
  cases h : d.label with
  | none => simp
  | some l => simp

theorem labels_disjoint (d : LabelValue) :
    ¬ (hasLabel communityLabels d = true ∧ hasLabel financialLabels d = true) := by
  unfold hasLabel
  cases h : d.label with
  | none => simp
  | some l =>
    simp only [decide_eq_true_eq]
    intro ⟨h1, h2⟩
    simp only [communityLabels, List.mem_cons, List.mem_singleton, List.not_mem_nil,
      or_false] at h1
    rcases h1 with rfl | rfl | rfl | rfl <;> revert h2 <;> decide

theorem getCoinsForCertikScraping_catches (env : Env) (rows : List Coin) (limit : Option Int) :
    getCoinsForCertikScraping env rows limit =
      match queryCandidates env rows limit with
      | .ok data => data
      | .error _ => [] := by
  unfold getCoinsForCertikScraping queryCandidates
  cases env.query <;> rfl

theorem rankLE_total (a b : Coin) : rankLE a b ∨ rankLE b a := by
  unfold rankLE
  cases a.market_cap_rank <;> cases b.market_cap_rank <;> simp
  exact Int.le_total _ _

theorem rankLE_trans (a b c : Coin) (h1 : rankLE a b) (h2 : rankLE b c) : rankLE a c := by
  unfold rankLE at *
  cases ha : a.market_cap_rank <;> cases hb : b.market_cap_rank <;>
    cases hc : c.market_cap_rank <;> simp [ha, hb, hc] at h1 h2 ⊢
  exact Int.le_trans h1 h2

theorem needsCertikData_iff (now : Int) (r : Coin) :
    needsCertikData now r = true ↔
      r.certik_data = none ∨ ∃ t, r.certik_next_update = some t ∧ t < now := by
  unfold needsCertikData
  cases hd : r.certik_data <;> cases hn : r.certik_next_update <;> simp

theorem foldl_settle_counts (env : Env) (coins : List Coin) (w : World)
    (hall : ∀ c ∈ coins, healthy c = true) :
    (coins.foldl (settle env) w).scraper.successCount +
        (coins.foldl (settle env) w).scraper.failCount =
      w.scraper.successCount + w.scraper.failCount + coins.length ∧
    w.scraper.successCount ≤ (coins.foldl (settle env) w).scraper.successCount ∧
    w.scraper.failCount ≤ (coins.foldl (settle env) w).scraper.failCount := by
  induction coins generalizing w with
  | nil => simp
  | cons c rest ih =>
    obtain ⟨h1, h2, h3⟩ := ih (settle env w c) (fun x hx => hall x (List.mem_cons_of_mem _ hx))
    obtain ⟨_, _, hsc⟩ := settle_healthy env w c (hall c (List.mem_cons_self _ _))
    simp only [List.foldl_cons, List.length_cons]
    rcases hsc with hsc | hsc <;> rw [hsc] at h1 h2 h3 <;> simp only at h1 h2 h3 <;>
      refine ⟨?_, ?_, ?_⟩ <;> omega

theorem batchSize_new_pos (options : Options) : 1 ≤ (CertikScraperSupabase.new options).batchSize := by
  unfold CertikScraperSupabase.new orDefault
  cases h : options.batchSize with
  | none => simp
  | some n =>
    cases n with
    | zero => simp
    | succ k => simp

theorem scrapeCoins_counts (env : Env) (coins : List Coin) (fuel : Nat) (w : World)
    (hne : coins ≠ []) (hb : 1 ≤ w.scraper.batchSize) (hfuel : coins.length ≤ fuel)
    (hall : ∀ c ∈ coins, healthy c = true) :
    ∃ s1 w1, scrapeCoins env fuel (some coins) w = some (s1, w1) ∧
      s1.success = w1.scraper.successCount ∧ s1.failed = w1.scraper.failCount ∧
      s1.total = some coins.length ∧
      w1.scraper.batchSize = w.scraper.batchSize ∧
      s1.success + s1.failed = w.scraper.successCount + w.scraper.failCount + coins.length ∧
      w.scraper.successCount ≤ s1.success ∧ w.scraper.failCount ≤ s1.failed := by
  have hN := numBatches_le coins.length w.scraper.batchSize hb
  obtain ⟨w1, hloop, hcore⟩ :=
    batchLoop_core env coins w.scraper.batchSize hb fuel 0 w rfl (by omega)
  rw [Nat.zero_mul] at hloop
  rw [Nat.zero_mul, List.drop_zero] at hcore
  obtain ⟨h1, h2, h3⟩ := foldl_settle_counts env coins w hall
  obtain ⟨_, _, _, hbs, _⟩ := foldl_settle_log env coins w
  rw [← hcore.1] at h1 h2 h3 hbs
  refine ⟨⟨w1.scraper.successCount, w1.scraper.failCount, some coins.length⟩, w1, ?_,
    rfl, rfl, rfl, hbs, h1, h2, h3⟩
  cases hc : coins with
  | nil => exact absurd hc hne
  | cons c cs =>
    rw [hc] at hloop
    simp only [scrapeCoins, hloop]

theorem endsInCatch_iff_caughtMessage (a : AttemptEnv) :
    endsInCatch a = true ↔ ∃ message, caughtMessage a = some message := by
  unfold endsInCatch caughtMessage
  cases hs : a.scrape with
  | null => simp
  | throws m => simp
  | data d =>
    by_cases hk : 0 < d.securityScores.keys.length
    · cases hu : a.updateData <;> simp [hk]
    · simp [hk]

/-- An attempt that ends in the `catch` block: its calls, with the wait at the end exactly when
the attempt number is below `maxRetries`. -/
theorem attemptCalls_caught (m : Nat) (a : AttemptEnv) (id : String) (term : Option String)
    (attempt : Nat) (message : String) (h : caughtMessage a = some message) :
    attemptCalls m a id term attempt =
      callsInTry a id term ++ [.updateCoinError id ("Scraping failed: " ++ message)] ++
        if attempt < m then [.waitSeconds 5] else [] := by
  unfold caughtMessage at h
  unfold attemptCalls callsInTry
  cases hs : a.scrape with
  | null => simp [hs] at h
  | throws s =>
    simp only [hs, Option.some.injEq] at h
    subst h
    by_cases hlt : attempt < m <;> simp [hlt, scrapingFailedMessage]
  | data d =>
    by_cases hk : 0 < d.securityScores.keys.length
    · cases hu : a.updateData with
      | ok => simp [hs, hk, hu] at h
      | error e =>
        simp only [hs, hk, hu, if_true, Option.some.injEq] at h
        subst h
        by_cases hlt : attempt < m <;> simp [hk, hlt, scrapingFailedMessage]
      | throws e =>
        simp only [hs, hk, hu, if_true, Option.some.injEq] at h
        subst h
        by_cases hlt : attempt < m <;> simp [hk, hlt, scrapingFailedMessage]
    · simp [hs, hk] at h

theorem succeeds_of_caughtMessage (a : AttemptEnv) (message : String)
    (h : caughtMessage a = some message) : succeeds a = false :=
  succeeds_of_endsInCatch a ((endsInCatch_iff_caughtMessage a).mpr ⟨message, h⟩)

theorem fiveSecondWaits_append (coin : Coin) (l1 l2 : List Event) :
    fiveSecondWaits coin (l1 ++ l2) = fiveSecondWaits coin l1 + fiveSecondWaits coin l2 := by
  simp [fiveSecondWaits]

theorem fiveSecondWaits_attemptCalls (coin : Coin) (m : Nat) (a : AttemptEnv) (id : String)
    (term : Option String) (attempt : Nat) :
    fiveSecondWaits coin (tagged coin (attemptCalls m a id term attempt)) =
      backoffWaits coin (tagged coin (attemptCalls m a id term attempt)) := by
  unfold attemptCalls
  cases hs : a.scrape with
  | null => simp [fiveSecondWaits, backoffWaits, tagged, List.filter_cons]
  | throws s =>
    by_cases hlt : attempt < m <;>
      simp [fiveSecondWaits, backoffWaits, tagged, List.filter_cons, hlt]
  | data d =>
    by_cases hk : 0 < d.securityScores.keys.length
    · cases hu : a.updateData <;> by_cases hlt : attempt < m <;>
        simp [fiveSecondWaits, backoffWaits, tagged, List.filter_cons, hk, hlt]
    · simp [fiveSecondWaits, backoffWaits, tagged, List.filter_cons, hk]

theorem fiveSecondWaits_planCalls (coin : Coin) (m : Nat) (ce : CoinEnv) (id : String)
    (p : List (Option String × Nat)) (total : Nat) :
    fiveSecondWaits coin (tagged coin (planCalls m ce id p total)) =
      backoffWaits coin (tagged coin (planCalls m ce id p total)) := by
  induction p generalizing total with
  | nil => rfl
  | cons x rest ih =>
    obtain ⟨term, a⟩ := x
    simp only [planCalls, tagged_append, fiveSecondWaits_append, backoffWaits_append,
      fiveSecondWaits_attemptCalls, ih]

theorem coinPlan_last (env : Env) (m : Nat) (coin : Coin) (sym id : String) (hm : 1 ≤ m) :
    ∃ init, coinPlan env m coin sym id = init ++ [(some (replaceDashes id), m)] ∧
      init.length + 1 = 3 * m := by
  obtain ⟨n, rfl⟩ : ∃ n, m = n + 1 := ⟨m - 1, by omega⟩
  refine ⟨(List.range' 1 (n + 1)).map (fun attempt => (coin.name, attempt)) ++
    ((List.range' 1 (n + 1)).map (fun attempt => (some (env.toUpperCase sym), attempt)) ++
      (List.range' 1 n).map (fun attempt => (some (replaceDashes id), attempt))), ?_, ?_⟩
  · simp only [coinPlan, attemptPlan, List.append_nil]
    rw [List.range'_concat 1 n]
    simp [List.append_assoc, Nat.add_comm]
  · simp
    omega

/-- An attempt that ends in the `catch` block, on the code: the error is recorded, then the
workflow waits 5 seconds exactly when the attempt number is below `maxRetries`, then it goes
on. -/
theorem attemptBody_caught (env : Env) (coin : Coin) (id : String) (term : Option String)
    (attempt total : Nat) (w : World) (message : String)
    (h : caughtMessage ((env.coin coin).attempt total) = some message) :
    ∃ w1, attemptBody env coin id term attempt total w = .next total w1 ∧
      w1.scraper = w.scraper ∧
      w1.log = w.log ++ tagged coin
        (callsInTry ((env.coin coin).attempt total) id term ++
          [.updateCoinError id ("Scraping failed: " ++ message)] ++
          if attempt < w.scraper.maxRetries then [.waitSeconds 5] else []) := by
  obtain ⟨w1, hb, hsc, _⟩ := attemptBody_of_fails env coin id term attempt total w
    (succeeds_of_caughtMessage _ message h)
  have hlog := attemptBody_log env coin id term attempt total w
  rw [hb] at hlog
  simp only [Step.world] at hlog
  exact ⟨w1, hb, hsc, by rw [hlog, attemptCalls_caught _ _ _ _ _ message h]⟩

/-! ## The claims -/

/-- C1: on an empty candidate list (or no list at all) `scrapeAndUpdateDatabase` returns
`{success: 0, failed: 0}` and leaves the world untouched (no browser call is logged), but the
returned object has no `total` key, so the scheduler's test `result.total === 0` is false. -/
theorem empty_candidates_summary_has_no_total (env : Env) (fuel : Nat) (limit : Option Int)
    (scraper : CertikScraperSupabase) (log : List Event) (w : World) :
    scrapeCoins env fuel (some []) w = some ({ success := 0, failed := 0, total := none }, w) ∧
    scrapeCoins env fuel none w = some ({ success := 0, failed := 0, total := none }, w) ∧
    scrapeAndUpdateDatabase env fuel limit ⟨scraper, [], log⟩ =
      some ({ success := 0, failed := 0, total := none }, ⟨scraper, [], log⟩) ∧
    ({ success := 0, failed := 0, total := none } : Summary).total ≠ some 0 ∧
    cronSeesNoCoins { success := 0, failed := 0, total := none } = false := by
  refine ⟨rfl, rfl, ?_, by simp, by decide⟩
  have h : getCoinsForCertikScraping env [] limit = [] := by
    unfold getCoinsForCertikScraping
    cases env.query with
    | ok =>
      cases limit with
      | none => rfl
      | some n => by_cases hn : 0 < n <;> simp [hn]
    | error m => rfl
    | throws m => rfl
  simp [scrapeAndUpdateDatabase, h, scrapeCoins]

/-- C2: when every attempt of a coin yields no usable result (`null` or an object with
empty `securityScores`) and the store accepts every request, `processSingleCoin` calls
`incrementScrapeAttempts` exactly `3 * maxRetries` times, the stored counter ends at its
prior value plus `3 * maxRetries`, and the call `updateCoinError` with the message
"All scraping attempts failed (N attempts)", `N = 3 * maxRetries`, is made exactly once,
as the last call, and is the stored error; for `maxRetries = 3` the message names 9. -/
theorem all_attempts_fail_counts (env : Env) (coin : Coin) (symbol coinGeckoId : String)
    (w : World) (prior : Option Nat)
    (hsym : coin.symbol = some symbol) (hid : coin.coin_gecko_id = some coinGeckoId)
    (hretries : 1 ≤ w.scraper.maxRetries)
    (hrow : attemptsOf w.rows coinGeckoId = [prior])
    (hscrape : ∀ k, 1 ≤ k → k ≤ 3 * w.scraper.maxRetries →
      NoUsableResult ((env.coin coin).attempt k).scrape)
    (hstore : ∀ k, 1 ≤ k → k ≤ 3 * w.scraper.maxRetries →
      ((env.coin coin).attempt k).selectAttempts = .ok ∧
      ((env.coin coin).attempt k).updateAttempts = .ok ∧
      ((env.coin coin).attempt k).updateError = .ok)
    (hfinal : (env.coin coin).finalError = .ok) :
    ∃ w1 earlier, processSingleCoin env coin w = .ok w1 ∧
      incrementCalls w1.log = incrementCalls w.log + 3 * w.scraper.maxRetries ∧
      attemptsOf w1.rows coinGeckoId = [some (orDefault prior 0 + 3 * w.scraper.maxRetries)] ∧
      w1.log = w.log ++ earlier ++
        [⟨some coin, .updateCoinError coinGeckoId
          (allFailedMessage (3 * w.scraper.maxRetries))⟩] ∧
      (∀ e ∈ earlier, ∀ i n, e.call ≠ .updateCoinError i (allFailedMessage n)) ∧
      (selectEq w1.rows coinGeckoId).map (fun r => r.certik_last_error) =
        [some (allFailedMessage (3 * w.scraper.maxRetries))] ∧
      (w.scraper.maxRetries = 3 →
        allFailedMessage (3 * w.scraper.maxRetries) =
          "All scraping attempts failed (9 attempts)") := by
  have hlen := length_coinPlan env w.scraper.maxRetries coin symbol coinGeckoId
  have hall1 : ∀ i, i < (coinPlan env w.scraper.maxRetries coin symbol coinGeckoId).length →
      succeeds ((env.coin coin).attempt (0 + 1 + i)) = false := by
    intro i hi
    exact succeeds_of_noUsableResult _ (hscrape _ (by omega) (by omega))
  obtain ⟨w2, hr, hsc, _, hlog⟩ := runPlan_fails env coin coinGeckoId _ 0 w hall1
  have hatt := runPlan_noData_attempts env coin coinGeckoId _ 0 w prior
    (fun i hi => ⟨hscrape _ (by omega) (by omega), (hstore _ (by omega) (by omega)).1,
      (hstore _ (by omega) (by omega)).2.1⟩) hrow _ w2 hr
  rw [hlen] at hatt hr
  rw [if_neg (by omega)] at hatt
  rw [Nat.zero_add] at hr
  have hsel1 : (selectEq w2.rows coinGeckoId).length = 1 := by
    have := congrArg List.length hatt
    simpa [attemptsOf] using this
  have hp : ∃ w1, processSingleCoin env coin w = .ok w1 ∧
      w1.rows = updateCoinError (env.coin coin).finalError (env.coin coin).finalClock w2.rows
        coinGeckoId (allFailedMessage (3 * w.scraper.maxRetries)) ∧
      w1.log = w2.log ++ [⟨some coin, .updateCoinError coinGeckoId
        (allFailedMessage (3 * w.scraper.maxRetries))⟩] := by
    rw [processSingleCoin_eq env coin symbol coinGeckoId w hsym hid, hr]
    exact ⟨_, rfl, by simp [callUpdateCoinError, emit], by simp [callUpdateCoinError, emit]⟩
  obtain ⟨w1, hw1, hrows1, hlog1⟩ := hp
  refine ⟨w1, tagged coin (planCalls w.scraper.maxRetries (env.coin coin) coinGeckoId
      (coinPlan env w.scraper.maxRetries coin symbol coinGeckoId) 0), hw1, ?_, ?_, ?_, ?_, ?_, ?_⟩
  · rw [hlog1, hlog, incrementCalls_append, incrementCalls_append, incrementCalls_planCalls,
      hlen]
    simp [incrementCalls]
  · rw [hrows1, attemptsOf_updateCoinError]
    exact hatt
  · rw [hlog1, hlog]
  · intro e he i n
    simp only [tagged, List.mem_map] at he
    obtain ⟨c, hc, rfl⟩ := he
    exact planCalls_no_allFailed _ _ _ _ _ c hc i n
  · rw [hrows1, hfinal, lastError_updateCoinError_ok]
    obtain ⟨r, hr1⟩ := List.length_eq_one.mp hsel1
    rw [hr1]
    rfl
  · intro h3
    rw [h3]
    decide

/-- C2 at a concrete input: nine attempts that all return `null`, default options. -/
theorem all_attempts_fail_counts_witness :
    ∃ w1, processSingleCoin (envAlways .null) exampleCoin exampleWorld = .ok w1 ∧
      incrementCalls w1.log = 9 ∧
      attemptsOf w1.rows "bitcoin-cash" = [some 9] ∧
      (selectEq w1.rows "bitcoin-cash").map (fun r => r.certik_last_error) =
        [some "All scraping attempts failed (9 attempts)"] := by
  obtain ⟨w1, _, hp, hinc, hatt, _, _, herr, h9⟩ :=
    all_attempts_fail_counts (envAlways .null) exampleCoin "bch" "bitcoin-cash" exampleWorld
      (some 0) rfl rfl (by decide) (by decide) (fun _ _ _ => Or.inl rfl)
      (fun _ _ _ => ⟨rfl, rfl, rfl⟩) rfl
  exact ⟨w1, hp, hinc, hatt, by rw [herr, h9 rfl]⟩

/-- C3: at the first attempt `k` whose result has a non-empty `securityScores` and whose success
write is accepted, `processSingleCoin` returns: after the calls of the `k - 1` earlier attempts
the log holds exactly `incrementScrapeAttempts`, `scrapeCertik` with the `k`-th planned term and
one `updateCoinCertikData` with that result, and nothing after it (no further scrape, increment,
error record or wait); `successCount` grows by one and `failCount` is unchanged. -/
theorem stops_at_first_success (env : Env) (coin : Coin) (symbol coinGeckoId : String)
    (w : World) (k : Nat) (d : CertikData)
    (hsym : coin.symbol = some symbol) (hid : coin.coin_gecko_id = some coinGeckoId)
    (hk1 : 1 ≤ k) (hk : k ≤ 3 * w.scraper.maxRetries)
    (hdata : ((env.coin coin).attempt k).scrape = .data d)
    (hkeys : d.securityScores.keys ≠ [])
    (hwrite : ((env.coin coin).attempt k).updateData = .ok)
    (hfirst : ∀ j, 1 ≤ j → j < k → succeeds ((env.coin coin).attempt j) = false) :
    ∃ w1 term, processSingleCoin env coin w = .ok w1 ∧
      (plannedTerms env w.scraper.maxRetries coin symbol coinGeckoId)[k - 1]? = some term ∧
      w1.log = w.log ++
        tagged coin (planCalls w.scraper.maxRetries (env.coin coin) coinGeckoId
          ((coinPlan env w.scraper.maxRetries coin symbol coinGeckoId).take (k - 1)) 0) ++
        [⟨some coin, .incrementScrapeAttempts coinGeckoId⟩, ⟨some coin, .scrapeCertik term⟩,
          ⟨some coin, .updateCoinCertikData coinGeckoId d⟩] ∧
      w1.scraper.successCount = w.scraper.successCount + 1 ∧
      w1.scraper.failCount = w.scraper.failCount := by
  obtain ⟨j, rfl⟩ : ∃ j, k = j + 1 := ⟨k - 1, by omega⟩
  have hlen := length_coinPlan env w.scraper.maxRetries coin symbol coinGeckoId
  have hjl : j < (coinPlan env w.scraper.maxRetries coin symbol coinGeckoId).length := by omega
  obtain ⟨w1, hp, hsc, hlog⟩ := processSingleCoin_succeeds env coin symbol coinGeckoId w hsym hid j
    (by omega) (fun i hi => hfirst (i + 1) (by omega) (by omega))
    (succeeds_of_data _ d hdata hkeys hwrite)
  have htake : (coinPlan env w.scraper.maxRetries coin symbol coinGeckoId).take (j + 1) =
      (coinPlan env w.scraper.maxRetries coin symbol coinGeckoId).take j ++
        [(coinPlan env w.scraper.maxRetries coin symbol coinGeckoId)[j]] := by
    rw [List.take_succ, List.getElem?_eq_getElem hjl]
    rfl
  have hlt : ((coinPlan env w.scraper.maxRetries coin symbol coinGeckoId).take j).length = j := by
    rw [List.length_take]
    omega
  have hterms : plannedTerms env w.scraper.maxRetries coin symbol coinGeckoId =
      (coinPlan env w.scraper.maxRetries coin symbol coinGeckoId).map Prod.fst := by
    simp [plannedTerms, coinPlan, map_fst_attemptPlan]
  refine ⟨w1, ((coinPlan env w.scraper.maxRetries coin symbol coinGeckoId)[j]).1, hp, ?_, ?_, ?_, ?_⟩
  · rw [hterms, Nat.add_sub_cancel, List.getElem?_map, List.getElem?_eq_getElem hjl]
    rfl
  · rw [hlog, htake, planCalls_append, tagged_append, Nat.add_sub_cancel, hlt, ← List.append_assoc]
    congr 1
    simp only [planCalls, Nat.zero_add, List.append_nil]
    rw [attemptCalls_of_succeeds _ _ _ _ _ d hdata hkeys hwrite]
    rfl
  · rw [hsc]
  · rw [hsc]

/-- C3 at a concrete input: the fourth attempt is the first to succeed. -/
theorem stops_at_first_success_witness :
    ∃ w1, processSingleCoin envFourth exampleCoin exampleWorld = .ok w1 ∧
      w1.scraper.successCount = 1 ∧ w1.scraper.failCount = 0 ∧
      w1.log.getLast? = some ⟨some exampleCoin, .updateCoinCertikData "bitcoin-cash" exampleData⟩ := by
  obtain ⟨w1, term, hp, _, hlog, hs, hf⟩ :=
    stops_at_first_success envFourth exampleCoin "bch" "bitcoin-cash" exampleWorld 4 exampleData
      rfl rfl (by decide) (by decide) rfl (by decide) rfl
      (fun j _ h4 => by
        have hj : j ≠ 4 := by omega
        simp [envFourth, attemptWith, succeeds, usable, hj])
  exact ⟨w1, hp, hs, hf, by rw [hlog]; simp⟩

/-- C4: an extraction result whose `securityScores` has no key, whatever else it holds, is not
written by `updateCoinCertikData` and is not counted as a success: the attempt logs exactly the
increment, the scrape and `updateCoinError` with "No security data found for search term:
<term>", leaves the scraper object as it was, stores that message when the store accepts the
write, and the inner loop goes on with the next attempt number. -/
theorem empty_scores_is_no_data (env : Env) (coin : Coin) (coinGeckoId : String)
    (searchTerm : Option String) (attempt totalAttempts : Nat) (w : World) (d : CertikData)
    (hdata : ((env.coin coin).attempt (totalAttempts + 1)).scrape = .data d)
    (hkeys : d.securityScores.keys = []) :
    ∃ w1,
      (∀ rest, forAttempts env coin coinGeckoId searchTerm (attempt :: rest) totalAttempts w =
        forAttempts env coin coinGeckoId searchTerm rest (totalAttempts + 1) w1) ∧
      w1.log = w.log ++
        [⟨some coin, .incrementScrapeAttempts coinGeckoId⟩,
          ⟨some coin, .scrapeCertik searchTerm⟩,
          ⟨some coin, .updateCoinError coinGeckoId
            ("No security data found for search term: " ++ jsString searchTerm)⟩] ∧
      w1.scraper = w.scraper ∧
      w1.rows.map (fun r => r.certik_data) = w.rows.map (fun r => r.certik_data) ∧
      (((env.coin coin).attempt (totalAttempts + 1)).updateError = .ok →
        ∀ r ∈ selectEq w1.rows coinGeckoId, r.certik_last_error =
          some ("No security data found for search term: " ++ jsString searchTerm)) := by
  have hnd : NoUsableResult ((env.coin coin).attempt (totalAttempts + 1)).scrape :=
    Or.inr ⟨d, hdata, hkeys⟩
  have hb := attemptBody_noData env coin coinGeckoId searchTerm attempt (totalAttempts + 1) w hnd
  refine ⟨{ scraper := w.scraper
            rows := updateCoinError ((env.coin coin).attempt (totalAttempts + 1)).updateError
              ((env.coin coin).attempt (totalAttempts + 1)).errorClock
              (incrementScrapeAttempts ((env.coin coin).attempt (totalAttempts + 1)).selectAttempts
                ((env.coin coin).attempt (totalAttempts + 1)).updateAttempts w.rows coinGeckoId)
              coinGeckoId (noDataMessage searchTerm)
            log := w.log ++
              [⟨some coin, .incrementScrapeAttempts coinGeckoId⟩,
                ⟨some coin, .scrapeCertik searchTerm⟩,
                ⟨some coin, .updateCoinError coinGeckoId (noDataMessage searchTerm)⟩] },
    ?_, rfl, rfl, ?_, ?_⟩
  · intro rest
    simp only [forAttempts, hb]
  · simp only [updateCoinError_map_data, incrementScrapeAttempts_map_data]
  · intro hok r hr
    simp only [hok] at hr
    have := lastError_updateCoinError_ok ((env.coin coin).attempt (totalAttempts + 1)).errorClock
      (incrementScrapeAttempts ((env.coin coin).attempt (totalAttempts + 1)).selectAttempts
        ((env.coin coin).attempt (totalAttempts + 1)).updateAttempts w.rows coinGeckoId)
      coinGeckoId (noDataMessage searchTerm)
    have hmem : r.certik_last_error ∈ (selectEq (updateCoinError .ok
        ((env.coin coin).attempt (totalAttempts + 1)).errorClock
        (incrementScrapeAttempts ((env.coin coin).attempt (totalAttempts + 1)).selectAttempts
          ((env.coin coin).attempt (totalAttempts + 1)).updateAttempts w.rows coinGeckoId)
        coinGeckoId (noDataMessage searchTerm)) coinGeckoId).map (fun r => r.certik_last_error) :=
      List.mem_map_of_mem _ hr
    rw [this] at hmem
    simp only [List.mem_map] at hmem
    obtain ⟨_, _, h⟩ := hmem
    exact h.symm

/-- C4 at a concrete input: empty `securityScores` beside a non-empty `communityEngagement`. -/
theorem empty_scores_is_no_data_witness :
    ∃ w1,
      forAttempts (envAlways (.data exampleEmptyScores)) exampleCoin "bitcoin-cash"
          (some "Bitcoin Cash") [1, 2, 3] 0 exampleWorld =
        forAttempts (envAlways (.data exampleEmptyScores)) exampleCoin "bitcoin-cash"
          (some "Bitcoin Cash") [2, 3] 1 w1 ∧
      w1.scraper.successCount = 0 ∧
      w1.log.getLast? = some ⟨some exampleCoin, .updateCoinError "bitcoin-cash"
        "No security data found for search term: Bitcoin Cash"⟩ := by
  obtain ⟨w1, hnext, hlog, hsc, _, _⟩ :=
    empty_scores_is_no_data (envAlways (.data exampleEmptyScores)) exampleCoin "bitcoin-cash"
      (some "Bitcoin Cash") 1 0 exampleWorld exampleEmptyScores rfl rfl
  refine ⟨w1, hnext [2, 3], by rw [hsc]; rfl, ?_⟩
  rw [hlog]
  simp
  decide

/-- C5: `updateCoinError` changes nothing but `certik_last_error` and `certik_last_updated`,
and only in rows with the given `coin_gecko_id` (where an accepted write sets them to the
message and to the clock reading); every other row is unchanged. Consequently a workflow
that ends in failure leaves `certik_data` of every row as it was. -/
theorem error_preserves_prior_data :
    (∀ (reply : StoreReply) (now : Int) (rows : List Coin) (coinGeckoId errorMessage : String),
      List.Forall₂
        (fun r r1 => SameButError r r1 ∧ (r.coin_gecko_id ≠ some coinGeckoId → r1 = r) ∧
          (r.coin_gecko_id = some coinGeckoId → reply = .ok →
            r1.certik_last_error = some errorMessage ∧ r1.certik_last_updated = some now))
        rows (updateCoinError reply now rows coinGeckoId errorMessage)) ∧
    (∀ (env : Env) (coin : Coin) (w w1 : World),
      processSingleCoin env coin w = .ok w1 →
      w1.scraper.failCount = w.scraper.failCount + 1 →
      w1.rows.map (fun r => r.certik_data) = w.rows.map (fun r => r.certik_data)) := by
  refine ⟨updateCoinError_frame, ?_⟩
  intro env coin w w1 hp hfail
  cases hs : coin.symbol with
  | none =>
    obtain ⟨m, hm⟩ := processSingleCoin_error env coin w (Or.inl hs)
    rw [hm] at hp
    cases hp
  | some sym =>
    cases hi : coin.coin_gecko_id with
    | none =>
      obtain ⟨m, hm⟩ := processSingleCoin_error env coin w (Or.inr hi)
      rw [hm] at hp
      cases hp
    | some id =>
      rcases first_success_or_none (env.coin coin) (3 * w.scraper.maxRetries) with
        hall | ⟨j, hj, hsj, hmin⟩
      · obtain ⟨w2, hp2, _, hdata, _⟩ := processSingleCoin_fails env coin sym id w hs hi hall
        rw [hp2] at hp
        cases hp
        exact hdata
      · obtain ⟨w2, hp2, hsc, _⟩ :=
          processSingleCoin_succeeds env coin sym id w hs hi j hj hmin hsj
        rw [hp2] at hp
        cases hp
        rw [hsc] at hfail
        simp at hfail

/-- C5 at a concrete input: a coin that holds data and whose nine attempts all fail. -/
theorem error_preserves_prior_data_witness :
    ∃ w1, processSingleCoin (envAlways .null) exampleStaleCoin exampleWorld = .ok w1 ∧
      w1.rows.map (fun r => r.certik_data) = [none, some exampleEmptyScores, none] ∧
      (selectEq w1.rows "ethereum").map (fun r => r.certik_last_error) =
        [some "All scraping attempts failed (9 attempts)"] :=
  ⟨_, rfl, error_preserves_prior_data.2 (envAlways .null) exampleStaleCoin exampleWorld _ rfl
    (by decide), by decide⟩

/-- C6: with the process in the zone America/New_York and the success written on
2024-03-09 at 12:00 UTC, `updateCoinCertikData` stores the result, clears the error and sets
`certik_last_updated` to the clock reading, but `certik_next_update` is two local calendar days
later, which is 47 hours after the call and not 48. -/
theorem next_update_is_two_local_days_not_48_hours :
    updateCoinCertikData newYorkTZA .ok march9Noon march9Noon [exampleStaleCoin] "ethereum"
        exampleData =
      .ok [{ exampleStaleCoin with
              certik_data := some exampleData
              certik_last_updated := some march9Noon
              certik_next_update := some (march9Noon + 47 * 3600000)
              certik_last_error := none }] ∧
    march9Noon + 47 * 3600000 ≠ march9Noon + 172800 * 1000 := by
  constructor
  · rfl
  · decide

/-- C7: the search terms `processSingleCoin` passes to `scrapeCertik` are, when no attempt
succeeds, the name `maxRetries` times, then the symbol upper-cased by the engine
(`String.prototype.toUpperCase`, the `toUpperCase` of the environment) `maxRetries` times, then
the id with every dash replaced by a space `maxRetries` times; when attempt `k` is the first
to succeed they are the first `k` terms of that sequence. -/
theorem search_terms_in_alias_major_order (env : Env) (coin : Coin)
    (symbol coinGeckoId : String) (w : World)
    (hsym : coin.symbol = some symbol) (hid : coin.coin_gecko_id = some coinGeckoId) :
    ((∀ k, 1 ≤ k → k ≤ 3 * w.scraper.maxRetries →
        succeeds ((env.coin coin).attempt k) = false) →
      ∃ w1, processSingleCoin env coin w = .ok w1 ∧
        scrapedTerms w1.log = scrapedTerms w.log ++
          (List.replicate w.scraper.maxRetries coin.name ++
            List.replicate w.scraper.maxRetries (some (env.toUpperCase symbol)) ++
            List.replicate w.scraper.maxRetries (some (replaceDashes coinGeckoId)))) ∧
    (∀ k, 1 ≤ k → k ≤ 3 * w.scraper.maxRetries →
      succeeds ((env.coin coin).attempt k) = true →
      (∀ j, 1 ≤ j → j < k → succeeds ((env.coin coin).attempt j) = false) →
      ∃ w1, processSingleCoin env coin w = .ok w1 ∧
        scrapedTerms w1.log = scrapedTerms w.log ++
          (List.replicate w.scraper.maxRetries coin.name ++
            List.replicate w.scraper.maxRetries (some (env.toUpperCase symbol)) ++
            List.replicate w.scraper.maxRetries (some (replaceDashes coinGeckoId))).take k) := by
  have hterms := plannedTerms_eq env w.scraper.maxRetries coin symbol coinGeckoId
  unfold plannedTerms at hterms
  constructor
  · intro hall
    obtain ⟨w1, hp, _, _, hlog⟩ := processSingleCoin_fails env coin symbol coinGeckoId w hsym hid
      (fun i hi => hall (i + 1) (by omega) (by omega))
    refine ⟨w1, hp, ?_⟩
    rw [hlog, scrapedTerms_append, tagged_append, scrapedTerms_append, scrapedTerms_planCalls,
      hterms]
    simp [scrapedTerms, tagged]
  · intro k hk1 hk hs hfirst
    obtain ⟨j, rfl⟩ : ∃ j, k = j + 1 := ⟨k - 1, by omega⟩
    obtain ⟨w1, hp, _, hlog⟩ := processSingleCoin_succeeds env coin symbol coinGeckoId w hsym hid j
      (by omega) (fun i hi => hfirst (i + 1) (by omega) (by omega)) hs
    refine ⟨w1, hp, ?_⟩
    rw [hlog, scrapedTerms_append, scrapedTerms_planCalls, hterms, List.map_take]

/-- C7 at concrete inputs: nine failing attempts use the three terms three times each, a
success at the fourth attempt stops after the first upper-cased symbol, and a symbol with a
sharp s and an id with two dashes give the terms the engine computes. -/
theorem search_terms_in_alias_major_order_witness :
    (∃ w1, processSingleCoin (envAlways .null) exampleCoin exampleWorld = .ok w1 ∧
      scrapedTerms w1.log =
        [some "Bitcoin Cash", some "Bitcoin Cash", some "Bitcoin Cash", some "BCH", some "BCH",
          some "BCH", some "bitcoin cash", some "bitcoin cash", some "bitcoin cash"]) ∧
    (∃ w1, processSingleCoin envFourth exampleCoin exampleWorld = .ok w1 ∧
      scrapedTerms w1.log =
        [some "Bitcoin Cash", some "Bitcoin Cash", some "Bitcoin Cash", some "BCH"]) ∧
    (∃ w1, processSingleCoin (envAlways .null) exampleSharpCoin exampleWorld = .ok w1 ∧
      scrapedTerms w1.log =
        [some "Straße Finance", some "Straße Finance", some "Straße Finance", some "STRASSE",
          some "STRASSE", some "STRASSE", some "strasse finance token",
          some "strasse finance token", some "strasse finance token"]) := by
  refine ⟨?_, ?_, ?_⟩
  · obtain ⟨w1, hp, hterms⟩ :=
      (search_terms_in_alias_major_order (envAlways .null) exampleCoin "bch" "bitcoin-cash"
        exampleWorld rfl rfl).1 (fun _ _ _ => rfl)
    refine ⟨w1, hp, ?_⟩
    rw [hterms]
    decide
  · obtain ⟨w1, hp, hterms⟩ :=
      (search_terms_in_alias_major_order envFourth exampleCoin "bch" "bitcoin-cash"
        exampleWorld rfl rfl).2 4 (by decide) (by decide) rfl
        (fun j _ h4 => by
          have hj : j ≠ 4 := by omega
          simp [envFourth, attemptWith, succeeds, usable, hj])
    refine ⟨w1, hp, ?_⟩
    rw [hterms]
    decide
  · obtain ⟨w1, hp, hterms⟩ :=
      (search_terms_in_alias_major_order (envAlways .null) exampleSharpCoin "straße"
        "strasse-finance-token" exampleWorld rfl rfl).1 (fun _ _ _ => rfl)
    refine ⟨w1, hp, ?_⟩
    rw [hterms]
    decide

/-- C8, as amended: an attempt that ends in the `catch` block (an exception from
`scrapeCertik` or from the success write) records the error and then waits 5 seconds exactly
when it is not the last attempt of its search term (`attempt < maxRetries`), and goes on. In a
workflow whose attempts all end so there are therefore `3 * (maxRetries - 1)` waits, all of 5
seconds, none between the last attempt of a term and the first of the next, and none after the
very last attempt: the log ends with the error record of that attempt and the closing record. -/
theorem backoff_follows_exception_within_term (env : Env) (coin : Coin)
    (symbol coinGeckoId : String) (w : World)
    (hsym : coin.symbol = some symbol) (hid : coin.coin_gecko_id = some coinGeckoId)
    (hretries : 1 ≤ w.scraper.maxRetries)
    (hcatch : ∀ k, 1 ≤ k → k ≤ 3 * w.scraper.maxRetries →
      endsInCatch ((env.coin coin).attempt k) = true) :
    (∀ (searchTerm : Option String) (attempt totalAttempts : Nat) (w0 : World) (message : String),
      caughtMessage ((env.coin coin).attempt totalAttempts) = some message →
      ∃ w1, attemptBody env coin coinGeckoId searchTerm attempt totalAttempts w0 =
          .next totalAttempts w1 ∧
        w1.log = w0.log ++ tagged coin
          (callsInTry ((env.coin coin).attempt totalAttempts) coinGeckoId searchTerm ++
            [.updateCoinError coinGeckoId ("Scraping failed: " ++ message)] ++
            if attempt < w0.scraper.maxRetries then [.waitSeconds 5] else [])) ∧
    ∃ w1 earlier message, processSingleCoin env coin w = .ok w1 ∧
      caughtMessage ((env.coin coin).attempt (3 * w.scraper.maxRetries)) = some message ∧
      w1.log = w.log ++ tagged coin
        (planCalls w.scraper.maxRetries (env.coin coin) coinGeckoId
          (coinPlan env w.scraper.maxRetries coin symbol coinGeckoId) 0) ++
        [⟨some coin, .updateCoinError coinGeckoId
          (allFailedMessage (3 * w.scraper.maxRetries))⟩] ∧
      fiveSecondWaits coin w1.log =
        fiveSecondWaits coin w.log + 3 * (w.scraper.maxRetries - 1) ∧
      backoffWaits coin w1.log = backoffWaits coin w.log + 3 * (w.scraper.maxRetries - 1) ∧
      w1.log = earlier ++
        [⟨some coin, .updateCoinError coinGeckoId ("Scraping failed: " ++ message)⟩,
          ⟨some coin, .updateCoinError coinGeckoId
            (allFailedMessage (3 * w.scraper.maxRetries))⟩] := by
  constructor
  · intro searchTerm attempt totalAttempts w0 message h
    obtain ⟨w1, hb, _, hlog⟩ :=
      attemptBody_caught env coin coinGeckoId searchTerm attempt totalAttempts w0 message h
    exact ⟨w1, hb, hlog⟩
  · have hlen := length_coinPlan env w.scraper.maxRetries coin symbol coinGeckoId
    have hfail : ∀ k, 1 ≤ k → k ≤ 3 * w.scraper.maxRetries →
        succeeds ((env.coin coin).attempt k) = false :=
      fun k h1 h2 => succeeds_of_endsInCatch _ (hcatch k h1 h2)
    obtain ⟨w1, hp, _, _, hlog⟩ := processSingleCoin_fails env coin symbol coinGeckoId w hsym hid
      (fun i hi => hfail (i + 1) (by omega) (by omega))
    have hlog1 : w1.log = w.log ++ tagged coin
        (planCalls w.scraper.maxRetries (env.coin coin) coinGeckoId
          (coinPlan env w.scraper.maxRetries coin symbol coinGeckoId) 0) ++
        [⟨some coin, .updateCoinError coinGeckoId
          (allFailedMessage (3 * w.scraper.maxRetries))⟩] := by
      rw [hlog, tagged_append, ← List.append_assoc]
      rfl
    have hcount : backoffWaits coin w1.log =
        backoffWaits coin w.log + 3 * (w.scraper.maxRetries - 1) := by
      rw [hlog1, backoffWaits_append, backoffWaits_append,
        backoffWaits_planCalls coin _ _ _ _ 0
          (fun i hi => hfail (0 + 1 + i) (by omega) (by omega)),
        caughtBeforeLast_coinPlan_all _ _ _ _ _ _
          (fun i hi => hcatch (i + 1) (by omega) (by omega))]
      simp [backoffWaits]
    have hfive : fiveSecondWaits coin w1.log =
        fiveSecondWaits coin w.log + 3 * (w.scraper.maxRetries - 1) := by
      rw [hlog1, fiveSecondWaits_append, fiveSecondWaits_append, fiveSecondWaits_planCalls,
        backoffWaits_planCalls coin _ _ _ _ 0
          (fun i hi => hfail (0 + 1 + i) (by omega) (by omega)),
        caughtBeforeLast_coinPlan_all _ _ _ _ _ _
          (fun i hi => hcatch (i + 1) (by omega) (by omega))]
      simp [fiveSecondWaits]
    obtain ⟨init, hinit, hinitlen⟩ :=
      coinPlan_last env w.scraper.maxRetries coin symbol coinGeckoId hretries
    obtain ⟨message, hmsg⟩ := (endsInCatch_iff_caughtMessage _).mp
      (hcatch (init.length + 1) (by omega) (by omega))
    refine ⟨w1, w.log ++ tagged coin
        (planCalls w.scraper.maxRetries (env.coin coin) coinGeckoId init 0 ++
          callsInTry ((env.coin coin).attempt (init.length + 1)) coinGeckoId
            (some (replaceDashes coinGeckoId))),
      message, hp, by rw [← hinitlen]; exact hmsg, hlog1, hfive, hcount, ?_⟩
    rw [hlog1, hinit, planCalls_append]
    simp only [planCalls, Nat.zero_add, List.append_nil]
    rw [attemptCalls_caught _ _ _ _ _ message hmsg]
    simp [tagged]

/-- C8, the claim refuted: with the default three retries, a coin whose nine attempts all
throw is recorded as failed after six waits of 5 seconds: two after each search term's first
two attempts, none between the terms; the claim has eight. -/
theorem backoff_between_all_attempts_refuted :
    (∃ w1, processSingleCoin (envAlways (.throws "timeout")) exampleCoin exampleWorld = .ok w1 ∧
      w1.scraper.failCount = 1 ∧ fiveSecondWaits exampleCoin w1.log = 6 ∧
      backoffWaits exampleCoin w1.log = 6 ∧
      w1.log.take 12 = tagged exampleCoin
        [.incrementScrapeAttempts "bitcoin-cash", .scrapeCertik (some "Bitcoin Cash"),
          .updateCoinError "bitcoin-cash" "Scraping failed: timeout", .waitSeconds 5,
          .incrementScrapeAttempts "bitcoin-cash", .scrapeCertik (some "Bitcoin Cash"),
          .updateCoinError "bitcoin-cash" "Scraping failed: timeout", .waitSeconds 5,
          .incrementScrapeAttempts "bitcoin-cash", .scrapeCertik (some "Bitcoin Cash"),
          .updateCoinError "bitcoin-cash" "Scraping failed: timeout",
          .incrementScrapeAttempts "bitcoin-cash"]) ∧
    3 * exampleWorld.scraper.maxRetries - 1 = 8 := by
  refine ⟨⟨_, rfl, ?_, ?_, ?_, ?_⟩, ?_⟩ <;> decide

/-- C8, the amended claim at a concrete input: nine attempts that all throw give six waits of
5 seconds and no wait after the last attempt. -/
theorem backoff_follows_exception_within_term_witness :
    ∃ w1 earlier, processSingleCoin (envAlways (.throws "timeout")) exampleCoin exampleWorld =
        .ok w1 ∧
      fiveSecondWaits exampleCoin w1.log = 6 ∧ backoffWaits exampleCoin w1.log = 6 ∧
      w1.log = earlier ++
        [⟨some exampleCoin, .updateCoinError "bitcoin-cash" "Scraping failed: timeout"⟩,
          ⟨some exampleCoin, .updateCoinError "bitcoin-cash"
            "All scraping attempts failed (9 attempts)"⟩] := by
  obtain ⟨w1, earlier, message, hp, hmsg, _, hfive, hall, hend⟩ :=
    (backoff_follows_exception_within_term (envAlways (.throws "timeout")) exampleCoin "bch"
      "bitcoin-cash" exampleWorld rfl rfl (by decide) (fun k _ _ => rfl)).2
  have hm : message = "timeout" := (Option.some.inj hmsg).symm
  refine ⟨w1, earlier, hp, hfive, hall, ?_⟩
  rw [hend, hm]
  rfl

/-- C9: for a non-empty candidate list of length `n` and a batch size `b >= 1`, the run logs,
for the batches `k = 0 .. ceil(n / b) - 1` in this order, the calls of the workflows of the
coins `coins.slice(k * b, k * b + b)`, then the settling of that batch, then one 5-second wait
unless the batch is the last. The part of batch `k` holds calls of coins of that batch only,
and for every coin it holds exactly the calls of one workflow for each entry of the batch
equal to that coin, so that over the whole run every coin has the calls of one workflow for
each of its entries in the candidate list. Here `workflowOf` is what `processSingleCoin` adds
to the log, and nothing when it rejects. The batches concatenate to the candidate list; every
batch but the last has `b` coins and the last has between 1 and `b`; the run makes
`ceil(n / b) - 1` waits of its own. -/
theorem batches_are_consecutive_slices (env : Env) (coins : List Coin) (fuel : Nat) (w : World)
    (hne : coins ≠ []) (hb : 1 ≤ w.scraper.batchSize) (hfuel : coins.length ≤ fuel) :
    (∀ c w0,
      match processSingleCoin env c w0 with
      | .ok w2 => w2.log = w0.log ++ workflowOf env w0.scraper.maxRetries c
      | .error _ => workflowOf env w0.scraper.maxRetries c = []) ∧
    ∃ w1 segment,
      scrapeCoins env fuel (some coins) w =
        some ({ success := w1.scraper.successCount
                failed := w1.scraper.failCount
                total := some coins.length }, w1) ∧
      w1.log = w.log ++
        ((List.range (numBatches coins.length w.scraper.batchSize)).map
          (batchLog coins w.scraper.batchSize segment)).flatten ∧
      (∀ k e, e ∈ segment k → ∃ c ∈ batchAt coins w.scraper.batchSize k, e.task = some c) ∧
      (∀ k c, eventsOf c (segment k) =
        workflowsOf env w.scraper.maxRetries c (batchAt coins w.scraper.batchSize k)) ∧
      (∀ c, eventsOf c w1.log =
        eventsOf c w.log ++ workflowsOf env w.scraper.maxRetries c coins) ∧
      ((List.range (numBatches coins.length w.scraper.batchSize)).map
        (batchAt coins w.scraper.batchSize)).flatten = coins ∧
      (∀ k, k + 1 < numBatches coins.length w.scraper.batchSize →
        (batchAt coins w.scraper.batchSize k).length = w.scraper.batchSize) ∧
      1 ≤ (batchAt coins w.scraper.batchSize
        (numBatches coins.length w.scraper.batchSize - 1)).length ∧
      (batchAt coins w.scraper.batchSize
        (numBatches coins.length w.scraper.batchSize - 1)).length ≤ w.scraper.batchSize ∧
      interBatchWaits w1.log =
        interBatchWaits w.log + (numBatches coins.length w.scraper.batchSize - 1) ∧
      (numBatches coins.length w.scraper.batchSize - 1) * w.scraper.batchSize < coins.length ∧
      coins.length ≤ numBatches coins.length w.scraper.batchSize * w.scraper.batchSize := by
  have hn : 0 < coins.length := List.length_pos.mpr hne
  have hN := numBatches_le coins.length w.scraper.batchSize hb
  have hN0 : 0 < numBatches coins.length w.scraper.batchSize := by
    rw [lt_numBatches _ _ _ hb]
    omega
  obtain ⟨w1, segment, hloop, _, hlog, htask, hown, hwaits⟩ :=
    batchLoop_log env coins w.scraper.batchSize w.scraper.maxRetries hb fuel 0 w rfl rfl
      (by omega)
  obtain ⟨w1c, hloopc, hcore⟩ :=
    batchLoop_core env coins w.scraper.batchSize hb fuel 0 w rfl (by omega)
  rw [Nat.zero_mul] at hloop hloopc
  rw [Nat.zero_mul, List.drop_zero] at hcore
  rw [hloop] at hloopc
  cases Option.some.inj hloopc
  rw [Nat.sub_zero, ← List.range_eq_range'] at hlog
  have hlast : (numBatches coins.length w.scraper.batchSize - 1) * w.scraper.batchSize <
      coins.length := by
    rw [← lt_numBatches _ _ _ hb]
    omega
  have hup : ¬ numBatches coins.length w.scraper.batchSize * w.scraper.batchSize <
      coins.length := by
    rw [← lt_numBatches _ _ _ hb]
    omega
  refine ⟨?_, w1, segment, ?_, hlog, htask, fun k c => hown k c (Nat.zero_le k), ?_, ?_, ?_, ?_,
    ?_, ?_, hlast, by omega⟩
  · intro c w0
    cases hp : processSingleCoin env c w0 with
    | ok w2 => exact processSingleCoin_log env c w0 w2 hp
    | error message =>
      have hs := settle_log_exact env w0 c
      simp only [settle, hp] at hs
      exact List.append_right_eq_self.mp hs.symm
  · cases hc : coins with
    | nil => exact absurd hc hne
    | cons c cs =>
      rw [hc] at hloop
      simp only [scrapeCoins, hloop]
  · intro c
    rw [eventsOf_eq_of_workflowEvents c _ _ hcore.2.2, foldl_settle_log_exact, eventsOf_append,
      eventsOf_workflows]
  · have := flatten_batches_from coins w.scraper.batchSize hb
      (numBatches coins.length w.scraper.batchSize) 0 (by omega)
    rw [← List.range_eq_range'] at this
    simpa using this
  · intro k hk
    rw [lt_numBatches _ _ _ hb, Nat.add_mul, Nat.one_mul] at hk
    rw [length_batchAt]
    omega
  · rw [length_batchAt]
    omega
  · rw [length_batchAt]
    omega
  · rw [hwaits, Nat.sub_zero]

/-- C9 at a concrete input: three candidates in batches of two, the first attempt of the two
coins that have a symbol succeeding. -/
theorem batches_are_consecutive_slices_witness :
    ∃ w1, scrapeCoins (envAlways (.data exampleData)) 3
        (some [exampleCoin, exampleStaleCoin, exampleFaultyCoin]) exampleWorldOfTwo =
        some ({ success := w1.scraper.successCount
                failed := w1.scraper.failCount
                total := some 3 }, w1) ∧
      interBatchWaits w1.log = 1 ∧
      batchAt [exampleCoin, exampleStaleCoin, exampleFaultyCoin] 2 0 =
        [exampleCoin, exampleStaleCoin] ∧
      batchAt [exampleCoin, exampleStaleCoin, exampleFaultyCoin] 2 1 = [exampleFaultyCoin] ∧
      eventsOf exampleCoin w1.log =
        tagged exampleCoin [.incrementScrapeAttempts "bitcoin-cash",
          .scrapeCertik (some "Bitcoin Cash"),
          .updateCoinCertikData "bitcoin-cash" exampleData] ∧
      eventsOf exampleStaleCoin w1.log =
        tagged exampleStaleCoin [.incrementScrapeAttempts "ethereum",
          .scrapeCertik (some "Ethereum"),
          .updateCoinCertikData "ethereum" exampleData] ∧
      eventsOf exampleFaultyCoin w1.log = [] := by
  obtain ⟨w1, _, hrun, _, _, _, hall, _, _, _, _, hwaits, _, _⟩ :=
    (batches_are_consecutive_slices (envAlways (.data exampleData))
      [exampleCoin, exampleStaleCoin, exampleFaultyCoin] 3 exampleWorldOfTwo (by simp)
      (by decide) (by decide)).2
  refine ⟨w1, hrun, hwaits, by decide, by decide, ?_, ?_, ?_⟩
  · rw [hall exampleCoin]
    decide
  · rw [hall exampleStaleCoin]
    decide
  · rw [hall exampleFaultyCoin]
    decide

/-- C10: a coin whose `symbol` or `coin_gecko_id` is `null` makes its workflow reject, and the
run still returns a summary: with enough iterations the run over `coins` ends with the same
table, the same counters and the same workflow calls as the run over the list without the
faulty coins. -/
theorem faulty_coin_is_isolated (env : Env) (coins : List Coin) (fuel : Nat) (w : World)
    (hne : coins ≠ []) (hb : 1 ≤ w.scraper.batchSize) (hfuel : coins.length ≤ fuel) :
    (∀ c w0, healthy c = false → ∃ message, processSingleCoin env c w0 = .error message) ∧
    ∃ w1 summary2 w2,
      scrapeCoins env fuel (some coins) w =
        some ({ success := w1.scraper.successCount
                failed := w1.scraper.failCount
                total := some coins.length }, w1) ∧
      scrapeCoins env fuel (some (coins.filter healthy)) w = some (summary2, w2) ∧
      w1.rows = w2.rows ∧ w1.scraper = w2.scraper ∧
      workflowEvents w1.log = workflowEvents w2.log := by
  constructor
  · intro c w0 hc
    apply processSingleCoin_error
    unfold healthy at hc
    cases hs : c.symbol <;> cases hi : c.coin_gecko_id <;> simp [hs, hi] at hc ⊢
  · have hN := numBatches_le coins.length w.scraper.batchSize hb
    obtain ⟨w1, hloop, hcore⟩ :=
      batchLoop_core env coins w.scraper.batchSize hb fuel 0 w rfl (by omega)
    rw [Nat.zero_mul] at hloop
    rw [Nat.zero_mul, List.drop_zero, ← foldl_settle_filter] at hcore
    have h1 : scrapeCoins env fuel (some coins) w =
        some ({ success := w1.scraper.successCount
                failed := w1.scraper.failCount
                total := some coins.length }, w1) := by
      cases hc : coins with
      | nil => exact absurd hc hne
      | cons c cs =>
        rw [hc] at hloop
        simp only [scrapeCoins, hloop]
    have hlen : (coins.filter healthy).length ≤ coins.length := List.length_filter_le _ _
    have hN2 := numBatches_le (coins.filter healthy).length w.scraper.batchSize hb
    obtain ⟨w2, hloop2, hcore2⟩ :=
      batchLoop_core env (coins.filter healthy) w.scraper.batchSize hb fuel 0 w rfl (by omega)
    rw [Nat.zero_mul] at hloop2
    rw [Nat.zero_mul, List.drop_zero] at hcore2
    cases hf : coins.filter healthy with
    | nil =>
      rw [hf] at hcore
      exact ⟨w1, _, w, h1, rfl, hcore.2.1, hcore.1, hcore.2.2⟩
    | cons c cs =>
      rw [hf] at hloop2 hcore2 hcore
      have hc12 := sameCore_trans _ _ _ hcore (sameCore_symm _ _ hcore2)
      exact ⟨w1, ⟨w2.scraper.successCount, w2.scraper.failCount, some (c :: cs).length⟩, w2, h1,
        by simp only [scrapeCoins, hloop2], hc12.2.1, hc12.1, hc12.2.2⟩

/-- C10 at a concrete input: the third candidate has no symbol. -/
theorem faulty_coin_is_isolated_witness :
    ∃ w1 summary2 w2,
      scrapeCoins (envAlways .null) 3
          (some [exampleCoin, exampleFaultyCoin, exampleStaleCoin]) exampleWorld =
        some ({ success := w1.scraper.successCount
                failed := w1.scraper.failCount
                total := some 3 }, w1) ∧
      scrapeCoins (envAlways .null) 3 (some [exampleCoin, exampleStaleCoin]) exampleWorld =
        some (summary2, w2) ∧
      w1.rows = w2.rows ∧ w1.scraper = w2.scraper ∧
      workflowEvents w1.log = workflowEvents w2.log :=
  (faulty_coin_is_isolated (envAlways .null) [exampleCoin, exampleFaultyCoin, exampleStaleCoin]
    3 exampleWorld (by simp) (by decide) (by decide)).2

/-- C11, as amended: when the store fails while the candidates are queried, the error is
raised inside `getCoinsForCertikScraping` and caught there; the function returns the empty
list and `scrapeAndUpdateDatabase` returns the summary of the empty path, leaving the world
as it was. -/
theorem query_failure_gives_empty_summary (env : Env) (fuel : Nat) (limit : Option Int)
    (w : World) (hfail : env.query ≠ .ok) :
    (∃ message, queryCandidates env w.rows limit = .error message) ∧
    getCoinsForCertikScraping env w.rows limit = [] ∧
    scrapeAndUpdateDatabase env fuel limit w =
      some ({ success := 0, failed := 0, total := none }, w) := by
  have hq : ∃ message, queryCandidates env w.rows limit = .error message := by
    unfold queryCandidates
    cases h : env.query with
    | ok => exact absurd h hfail
    | error m => exact ⟨m, rfl⟩
    | throws m => exact ⟨m, rfl⟩
  obtain ⟨m, hm⟩ := hq
  have hg : getCoinsForCertikScraping env w.rows limit = [] := by
    rw [getCoinsForCertikScraping_catches, hm]
  exact ⟨⟨m, hm⟩, hg, by simp [scrapeAndUpdateDatabase, hg, scrapeCoins]⟩

/-- C11, the claim refuted: the table holds coins that are due, the query fails with
"fetch failed", and `scrapeAndUpdateDatabase` returns a summary instead of failing. -/
theorem query_failure_does_not_propagate :
    getCoinsForCertikScraping (envAlways .null) exampleWorld.rows none ≠ [] ∧
    queryCandidates envQueryFails exampleWorld.rows none = .error "fetch failed" ∧
    scrapeAndUpdateDatabase envQueryFails 0 none exampleWorld =
      some ({ success := 0, failed := 0, total := none }, exampleWorld) := by
  refine ⟨?_, rfl, rfl⟩
  intro h
  have hmem : exampleCoin ∈ getCoinsForCertikScraping (envAlways .null) exampleWorld.rows none := by
    simp only [getCoinsForCertikScraping, envAlways, List.mem_insertionSort, List.mem_filter]
    decide
  rw [h] at hmem
  cases hmem

/-- C11, the amended claim at a concrete input. -/
theorem query_failure_gives_empty_summary_witness :
    getCoinsForCertikScraping envQueryFails exampleWorld.rows (some 5) = [] ∧
    scrapeAndUpdateDatabase envQueryFails 3 (some 5) exampleWorld =
      some ({ success := 0, failed := 0, total := none }, exampleWorld) :=
  (query_failure_gives_empty_summary envQueryFails 3 (some 5) exampleWorld (by decide)).2

/-- C12: once the detail page is reached, a failure of the average-score read, of the
security-metrics read or of the daily-inflows read leaves only that sub-result absent and the
result object is returned; but a failure of the bulk read of label/value pairs, which has no
`try` of its own, leaves the outer `try` block and `scrapeCertik` returns `null`, whatever the
other reads produced. -/
theorem bulk_read_failure_aborts_extraction (averageScore : Except String String)
    (additionalMetrics dailyInflows : Except String (List LabelValue))
    (searchTerm : Option String) :
    (∀ message,
      scrapeCertik (detailPage averageScore additionalMetrics (.error message) dailyInflows)
        searchTerm = .null) ∧
    (∀ allData, ∃ r,
      scrapeCertik (detailPage averageScore additionalMetrics (.ok allData) dailyInflows)
        searchTerm = .data r ∧
      r.securityScores.averageScore = averageScore.toOption ∧
      r.securityScores.additionalMetrics = additionalMetrics.toOption ∧
      r.financialData.dailyInflows = dailyInflows.toOption) ∧
    scrapeCertik pageWithoutBulkRead (some "Bitcoin Cash") = .null := by
  refine ⟨fun message => ?_, fun allData => ?_, by decide⟩
  · rw [scrapeCertik_detailPage]
    simp [extractDetail, detailPage]
  · rw [scrapeCertik_detailPage]
    refine ⟨_, by simp only [extractDetail, detailPage]; rfl, ?_, ?_, ?_⟩
    · cases averageScore <;> cases additionalMetrics <;> rfl
    · cases averageScore <;> cases additionalMetrics <;> rfl
    · cases dailyInflows <;> rfl

/-- C13: on a detail page without security-score section (the wait for the average score
fails and the metric-button read matches nothing), `$$eval` yields the empty array, which is
assigned to `securityScores.additionalMetrics`; the object then has one key, the result
passes the test of `processSingleCoin` and is written by `updateCoinCertikData` as a success
at the first attempt. -/
theorem absent_scores_pass_as_success :
    (∀ (message : String) (allData : List LabelValue)
        (dailyInflows : Except String (List LabelValue)) (searchTerm : Option String),
      ∃ r, scrapeCertik (detailPage (.error message) (.ok []) (.ok allData) dailyInflows)
          searchTerm = .data r ∧
        r.securityScores = { averageScore := none, additionalMetrics := some [] } ∧
        r.securityScores.keys = ["additionalMetrics"] ∧
        usable (.data r) = true) ∧
    (∃ r w1, scrapeCertik pageWithoutScores (some "Bitcoin Cash") = .data r ∧
      processSingleCoin (envAlways (scrapeCertik pageWithoutScores (some "Bitcoin Cash")))
        exampleCoin exampleWorld = .ok w1 ∧
      w1.log = [⟨some exampleCoin, .incrementScrapeAttempts "bitcoin-cash"⟩,
        ⟨some exampleCoin, .scrapeCertik (some "Bitcoin Cash")⟩,
        ⟨some exampleCoin, .updateCoinCertikData "bitcoin-cash" r⟩] ∧
      w1.scraper.successCount = 1 ∧
      (selectEq w1.rows "bitcoin-cash").map (fun c => c.certik_data) = [some r] ∧
      (selectEq w1.rows "bitcoin-cash").map (fun c => c.certik_last_error) = [none]) := by
  constructor
  · intro message allData dailyInflows searchTerm
    refine ⟨{ project := searchTerm
              securityScores := { averageScore := none, additionalMetrics := some [] }
              communityEngagement := allData.filter (hasLabel communityLabels)
              financialData :=
                { metrics := some (allData.filter (hasLabel financialLabels))
                  dailyInflows := dailyInflows.toOption } }, ?_, rfl, rfl, rfl⟩
    rw [scrapeCertik_detailPage]
    cases dailyInflows <;> rfl
  · refine ⟨_, _, rfl, rfl, ?_, ?_, ?_, ?_⟩ <;> decide

/-- C14: when the bulk read yields `allData`, `communityEngagement` is `allData` filtered, in
order, to the pairs whose label is one of the 4 community labels, `financialData.metrics` is
`allData` filtered to the pairs whose label is one of the 5 financial labels, no pair is in
both, and a pair whose label is in neither list, or is `undefined`, is in neither. -/
theorem engagement_and_financial_partition (averageScore : Except String String)
    (additionalMetrics dailyInflows : Except String (List LabelValue))
    (allData : List LabelValue) (searchTerm : Option String) :
    ∃ r metrics,
      scrapeCertik (detailPage averageScore additionalMetrics (.ok allData) dailyInflows)
        searchTerm = .data r ∧
      r.financialData.metrics = some metrics ∧
      r.communityEngagement =
        allData.filter (fun d => decide (∃ l ∈ communityLabels, d.label = some l)) ∧
      metrics = allData.filter (fun d => decide (∃ l ∈ financialLabels, d.label = some l)) ∧
      r.communityEngagement.Sublist allData ∧ metrics.Sublist allData ∧
      communityLabels.length = 4 ∧ financialLabels.length = 5 ∧
      (∀ d, ¬ (d ∈ r.communityEngagement ∧ d ∈ metrics)) ∧
      (∀ d, (∀ l ∈ communityLabels ++ financialLabels, d.label ≠ some l) →
        d ∉ r.communityEngagement ∧ d ∉ metrics) ∧
      (∀ d, d.label = none → d ∉ r.communityEngagement ∧ d ∉ metrics) := by
  have hc : ∀ labels : List String, hasLabel labels =
      fun d => decide (∃ l ∈ labels, d.label = some l) := by
    intro labels
    funext d
    rw [Bool.eq_iff_iff, hasLabel_iff]
    simp
  have hrun : scrapeCertik (detailPage averageScore additionalMetrics (.ok allData) dailyInflows)
      searchTerm = .data
        { project := searchTerm
          securityScores :=
            { averageScore := averageScore.toOption
              additionalMetrics := additionalMetrics.toOption }
          communityEngagement := allData.filter (hasLabel communityLabels)
          financialData :=
            { metrics := some (allData.filter (hasLabel financialLabels))
              dailyInflows := dailyInflows.toOption } } := by
    rw [scrapeCertik_detailPage]
    cases averageScore <;> cases additionalMetrics <;> cases dailyInflows <;> rfl
  have hno : ∀ d : LabelValue, (∀ l ∈ communityLabels ++ financialLabels, d.label ≠ some l) →
      d ∉ allData.filter (hasLabel communityLabels) ∧
        d ∉ allData.filter (hasLabel financialLabels) := by
    intro d hd
    constructor
    · intro hmem
      obtain ⟨l, hl, hdl⟩ := (hasLabel_iff _ _).mp (List.mem_filter.mp hmem).2
      exact hd l (List.mem_append_left _ hl) hdl
    · intro hmem
      obtain ⟨l, hl, hdl⟩ := (hasLabel_iff _ _).mp (List.mem_filter.mp hmem).2
      exact hd l (List.mem_append_right _ hl) hdl
  refine ⟨_, _, hrun, rfl, ?_, ?_, List.filter_sublist _, List.filter_sublist _, rfl, rfl,
    ?_, hno, ?_⟩
  · simp only [hc]
  · simp only [hc]
  · intro d ⟨h1, h2⟩
    exact labels_disjoint d ⟨(List.mem_filter.mp h1).2, (List.mem_filter.mp h2).2⟩
  · intro d hd
    exact hno d (fun l _ h => by rw [hd] at h; cases h)

/-- C14 at a concrete input: four pairs, one of each kind. -/
theorem engagement_and_financial_partition_witness :
    ∃ r, scrapeCertik pageWithoutScores (some "Bitcoin Cash") = .data r ∧
      r.communityEngagement = [⟨some "Twitter Followers (24h)", some "12"⟩] ∧
      r.financialData.metrics = some [⟨some "Market Cap", some "$1"⟩] := by
  obtain ⟨r, metrics, hrun, hm, hc, hmetrics, _⟩ :=
    engagement_and_financial_partition (.error "Waiting for selector failed: 30000ms exceeded")
      (.ok []) (.ok [])
      [⟨some "Twitter Followers (24h)", some "12"⟩, ⟨some "Market Cap", some "$1"⟩,
        ⟨some "Holders", some "7"⟩, ⟨none, some "9"⟩] (some "Bitcoin Cash")
  refine ⟨r, hrun, ?_, ?_⟩
  · rw [hc]
    decide
  · rw [hm, hmetrics]
    decide

/-- C15, as amended: when the store answers the query, `getCoinsForCertikScraping` returns
the stored rows for which `certik_data` is null or `certik_next_update` is strictly before
`now()`, each as often as stored, ordered by `market_cap_rank` ascending, cut to the first
`limit` rows when `limit` is positive and not cut when it is null, 0 or negative. -/
theorem candidates_are_due_rows_in_rank_order (env : Env) (rows : List Coin)
    (hok : env.query = .ok) :
    (getCoinsForCertikScraping env rows none).Sorted rankLE ∧
    (getCoinsForCertikScraping env rows none).Perm
      (rows.filter (needsCertikData env.queryNow)) ∧
    (∀ r, r ∈ getCoinsForCertikScraping env rows none ↔
      r ∈ rows ∧ (r.certik_data = none ∨
        ∃ t, r.certik_next_update = some t ∧ t < env.queryNow)) ∧
    (∀ n : Int, 0 < n →
      getCoinsForCertikScraping env rows (some n) =
        (getCoinsForCertikScraping env rows none).take n.toNat) ∧
    (∀ n : Int, n ≤ 0 →
      getCoinsForCertikScraping env rows (some n) = getCoinsForCertikScraping env rows none) := by
  haveI : IsTotal Coin rankLE := ⟨rankLE_total⟩
  haveI : IsTrans Coin rankLE := ⟨rankLE_trans⟩
  have hnone : getCoinsForCertikScraping env rows none =
      (rows.filter (needsCertikData env.queryNow)).insertionSort rankLE := by
    simp [getCoinsForCertikScraping, hok]
  refine ⟨?_, ?_, ?_, ?_, ?_⟩
  · rw [hnone]
    exact List.sorted_insertionSort rankLE _
  · rw [hnone]
    exact List.perm_insertionSort rankLE _
  · intro r
    rw [hnone, List.mem_insertionSort, List.mem_filter, needsCertikData_iff]
  · intro n hn
    rw [hnone]
    simp [getCoinsForCertikScraping, hok, hn]
  · intro n hn
    rw [hnone]
    have : ¬ 0 < n := by omega
    simp [getCoinsForCertikScraping, hok, this]

/-- C15, the claim refuted: a row that holds data and whose `certik_next_update` equals
`now()` satisfies the claimed filter but is not returned. -/
theorem row_due_exactly_now_is_left_out :
    (envAlways .null).queryNow = 3000 ∧
    exampleCoinDueNow.certik_next_update = some 3000 ∧
    [exampleCoin, exampleCoinDueNow].filter (dueAtOrBefore 3000) =
      [exampleCoin, exampleCoinDueNow] ∧
    getCoinsForCertikScraping (envAlways .null) [exampleCoin, exampleCoinDueNow] none =
      [exampleCoin] := by
  refine ⟨rfl, rfl, by decide, ?_⟩
  have hf : [exampleCoin, exampleCoinDueNow].filter (needsCertikData 3000) = [exampleCoin] := by
    decide
  simp only [getCoinsForCertikScraping, envAlways, hf]
  rfl

/-- C15, the amended claim at a concrete input: the three example rows, one of them with data
whose horizon has passed, limited to two. -/
theorem candidates_are_due_rows_in_rank_order_witness :
    (getCoinsForCertikScraping (envAlways .null) exampleWorld.rows none).Sorted rankLE ∧
    (∀ r, r ∈ getCoinsForCertikScraping (envAlways .null) exampleWorld.rows none ↔
      r ∈ exampleWorld.rows ∧ (r.certik_data = none ∨
        ∃ t, r.certik_next_update = some t ∧ t < (envAlways .null).queryNow)) ∧
    getCoinsForCertikScraping (envAlways .null) exampleWorld.rows (some 2) =
      (getCoinsForCertikScraping (envAlways .null) exampleWorld.rows none).take 2 := by
  obtain ⟨hs, _, hmem, hlim, _⟩ :=
    candidates_are_due_rows_in_rank_order (envAlways .null) exampleWorld.rows rfl
  exact ⟨hs, hmem, hlim 2 (by decide)⟩

/-- C16: the workflow of a coin with non-null symbol and id increments exactly one of
`successCount` and `failCount`, by one. On a freshly constructed scraper a run over a
non-empty list of such coins therefore returns `success + failed = total = n`; a second run
on the same object starts from the counters the first run left, so its `success` and
`failed` include the first run's and add up to the two totals together. -/
theorem counters_sum_to_total_and_accumulate (env : Env) (options : Options)
    (rows : List Coin) (log : List Event) (coins : List Coin) (fuel : Nat)
    (hne : coins ≠ []) (hall : ∀ c ∈ coins, healthy c = true) (hfuel : coins.length ≤ fuel) :
    (∀ c (w0 : World), healthy c = true →
      (settle env w0 c).scraper =
          { w0.scraper with successCount := w0.scraper.successCount + 1 } ∨
        (settle env w0 c).scraper =
          { w0.scraper with failCount := w0.scraper.failCount + 1 }) ∧
    ∃ s1 w1,
      scrapeCoins env fuel (some coins) ⟨CertikScraperSupabase.new options, rows, log⟩ =
        some (s1, w1) ∧
      s1.success + s1.failed = coins.length ∧ s1.total = some coins.length ∧
      s1.success = w1.scraper.successCount ∧ s1.failed = w1.scraper.failCount ∧
      ∀ (env2 : Env) (coins2 : List Coin) (fuel2 : Nat), coins2 ≠ [] →
        (∀ c ∈ coins2, healthy c = true) → coins2.length ≤ fuel2 →
        ∃ s2 w2, scrapeCoins env2 fuel2 (some coins2) w1 = some (s2, w2) ∧
          s2.total = some coins2.length ∧
          s2.success + s2.failed = coins.length + coins2.length ∧
          s1.success ≤ s2.success ∧ s1.failed ≤ s2.failed := by
  constructor
  · intro c w0 hc
    obtain ⟨_, _, hsc⟩ := settle_healthy env w0 c hc
    exact hsc
  · obtain ⟨s1, w1, hrun, hs, hf, ht, hbs, hsum, _, _⟩ :=
      scrapeCoins_counts env coins fuel ⟨CertikScraperSupabase.new options, rows, log⟩ hne
        (batchSize_new_pos options) hfuel hall
    have hsum1 : s1.success + s1.failed = coins.length := by
      simpa [CertikScraperSupabase.new] using hsum
    refine ⟨s1, w1, hrun, hsum1, ht, hs, hf, ?_⟩
    intro env2 coins2 fuel2 hne2 hall2 hfuel2
    have hb1 : 1 ≤ w1.scraper.batchSize := by
      rw [hbs]
      exact batchSize_new_pos options
    obtain ⟨s2, w2, hrun2, _, _, ht2, _, hsum2, hle1, hle2⟩ :=
      scrapeCoins_counts env2 coins2 fuel2 w1 hne2 hb1 hfuel2 hall2
    refine ⟨s2, w2, hrun2, ht2, ?_, ?_, ?_⟩
    · rw [hsum2, ← hs, ← hf, hsum1]
    · rw [hs]; exact hle1
    · rw [hf]; exact hle2

/-- C16 at a concrete input: a fresh scraper over two coins (all attempts fail), then a second
run over one coin on the same object. -/
theorem counters_sum_to_total_and_accumulate_witness :
    ∃ s1 w1 s2 w2,
      scrapeCoins (envAlways .null) 2 (some [exampleCoin, exampleStaleCoin]) exampleWorld =
        some (s1, w1) ∧
      s1.success + s1.failed = 2 ∧ s1.total = some 2 ∧
      scrapeCoins envFourth 1 (some [exampleCoin]) w1 = some (s2, w2) ∧
      s2.total = some 1 ∧ s2.success + s2.failed = 3 := by
  obtain ⟨s1, w1, hrun, hsum, ht, _, _, hsecond⟩ :=
    (counters_sum_to_total_and_accumulate (envAlways .null)
      { batchSize := none, maxRetries := none } exampleWorld.rows [] [exampleCoin, exampleStaleCoin]
      2 (by simp) (by decide) (by decide)).2
  obtain ⟨s2, w2, hrun2, ht2, hsum2, _, _⟩ :=
    hsecond envFourth [exampleCoin] 1 (by simp) (by decide) (by decide)
  exact ⟨s1, w1, s2, w2, hrun, hsum, ht, hrun2, ht2, hsum2⟩

end CertikScraper
